import Mathlib

/-!
Verification development for the Mitacs python scripts repository.

The development shallowly embeds the three source files the claims touch:
src/scripts/file_conversion/data_to_xyz.py (configuration-file parser,
element resolver, interchange writer), src/scripts/vac_analysis/summary.py
(log scanner and directory aggregator) and src/scripts/vac_generation/check.py
(integrity checker).  Python text is modelled as lists of characters, Python
floats as rationals, fallible code as Option (none models an uncaught
exception), and file bytes as an abstract byte type that is either a decoded
character or an invalid byte.
-/

set_option maxRecDepth 40000

namespace Mitacs

/-- A line (or any piece) of Python text, modelled as its list of characters. -/
abbrev Line := List Char

/-- The whitespace test used by Python str.strip and str.split. -/
def isWS (c : Char) : Bool :=
  c == ' ' || c == '\t' || c == '\n' || c == '\r' || c == '\x0b' || c == '\x0c'

/-- Python str.strip: drop leading and trailing whitespace. -/
def pyStrip (l : Line) : Line :=
  ((l.dropWhile isWS).reverse.dropWhile isWS).reverse

/-- Python str.lower, character by character. -/
def pyLower (l : Line) : Line := l.map Char.toLower

/-- Worker for pySplit: walks the characters keeping the current token in
reverse in the accumulator. -/
def pySplitAux : Line → Line → List Line
  | [], acc => if acc.isEmpty then [] else [acc.reverse]
  | c :: cs, acc =>
    if isWS c then
      if acc.isEmpty then pySplitAux cs [] else acc.reverse :: pySplitAux cs []
    else pySplitAux cs (c :: acc)

/-- Python str.split with no argument: split on runs of whitespace,
producing only nonempty tokens. -/
def pySplit (l : Line) : List Line := pySplitAux l []

/-- Python substring containment, s1 in s2. -/
def infixOf (pat l : Line) : Bool := l.tails.any (fun t => pat.isPrefixOf t)

/-- Python str.startswith. -/
def startsWithL (pat l : Line) : Bool := pat.isPrefixOf l

/-- Numeric value of a list of decimal digit characters. -/
def digitsToNat (l : Line) : Nat := l.foldl (fun a c => 10 * a + (c.toNat - 48)) 0

/-- Value of a token that must consist of one or more digits. -/
def digitsVal (ds : Line) : Option Nat :=
  if !ds.isEmpty && ds.all Char.isDigit then some (digitsToNat ds) else none

/-- Python int(token) on a whitespace-free token: an optional sign followed by
digits; anything else raises, modelled as none. -/
def parseIntTok : Line → Option Int
  | [] => none
  | c :: r =>
    if c = '-' then (digitsVal r).map (fun n => -(n : Int))
    else if c = '+' then (digitsVal r).map (fun n => (n : Int))
    else (digitsVal (c :: r)).map (fun n => (n : Int))

/-- Kernel-evaluable rational addition; the library addition on ℚ is
irreducible, so executable definitions use this cross-multiplication form. -/
def qAdd (a b : ℚ) : ℚ := mkRat (a.num * (b.den : Int) + b.num * (a.den : Int)) (a.den * b.den)

/-- Kernel-evaluable rational subtraction. -/
def qSub (a b : ℚ) : ℚ := qAdd a (-b)

/-- Kernel-evaluable rational multiplication. -/
def qMul (a b : ℚ) : ℚ := mkRat (a.num * b.num) (a.den * b.den)

/-- Unsigned part of Python float(token) restricted to plain decimal literals:
digits, an optional dot and further digits, at least one digit in total.
Exponent and special forms are outside the inputs this development considers. -/
def pyFloatCore (t : Line) : Option ℚ :=
  let ip := t.takeWhile Char.isDigit
  match t.dropWhile Char.isDigit with
  | [] => if ip.isEmpty then none else some ((digitsToNat ip : ℚ))
  | '.' :: r =>
    if r.all Char.isDigit && !(ip.isEmpty && r.isEmpty) then
      some (qAdd ((digitsToNat ip : Nat) : ℚ) (mkRat ((digitsToNat r : Nat) : Int) (10 ^ r.length)))
    else none
  | _ => none

/-- Python float(token) on a whitespace-free token, with optional sign. -/
def pyFloatTok : Line → Option ℚ
  | [] => none
  | c :: r =>
    if c = '-' then (pyFloatCore r).map (fun q => -q)
    else if c = '+' then pyFloatCore r
    else pyFloatCore (c :: r)

/-- Python abs on a float value, written without the order-instance
absolute value so that the kernel can evaluate it. -/
def absQ (q : ℚ) : ℚ := if q < 0 then -q else q

/-- Floor of a rational, written with integer flooring division so that the
kernel can evaluate it. -/
def qFloor (q : ℚ) : Int := q.num.fdiv (q.den : Int)

/-- Python int(q) for a float value q: truncation toward zero. -/
def pyInt (q : ℚ) : Int :=
  if 0 ≤ q.num then ((q.num.toNat / q.den : Nat) : Int)
  else -(((-q.num).toNat / q.den : Nat) : Int)

/-- Decimal digits of a natural number. -/
def natChars (n : Nat) : Line := Nat.toDigits 10 n

/-- Decimal rendering of an integer, with a leading minus sign if negative. -/
def intChars (i : Int) : Line :=
  if i < 0 then '-' :: natChars i.natAbs else natChars i.natAbs

/-- Python repr of a float value, modelled for rationals: an integral value
renders as its digits followed by .0, exactly as Python prints such floats.
Non-integral values render with six fractional digits; the theorems in this
development only evaluate the formatter at values where the model is exact. -/
def pyReprQ (q : ℚ) : Line :=
  if q.den = 1 then intChars q.num ++ ['.', '0']
  else intChars (pyInt q) ++ '.' :: natChars ((qFloor (qMul (absQ q) 1000000)).toNat % 1000000)

/-! ## ElementResolver: mass_to_element from data_to_xyz.py -/

/-- The fixed mass-to-element reference table of data_to_xyz.py, in the
insertion order of the Python dict literal. -/
def massTable : List (ℚ × Line) :=
  [ (mkRat 1008 1000, "H".toList), (mkRat 4003 1000, "He".toList), (mkRat 6941 1000, "Li".toList),
    (mkRat 9012 1000, "Be".toList), (mkRat 10811 1000, "B".toList), (mkRat 12011 1000, "C".toList),
    (mkRat 14007 1000, "N".toList), (mkRat 15999 1000, "O".toList), (mkRat 18998 1000, "F".toList),
    (mkRat 20180 1000, "Ne".toList), (mkRat 22990 1000, "Na".toList), (mkRat 24305 1000, "Mg".toList),
    (mkRat 26982 1000, "Al".toList), (mkRat 28086 1000, "Si".toList), (mkRat 30974 1000, "P".toList),
    (mkRat 32065 1000, "S".toList), (mkRat 35453 1000, "Cl".toList), (mkRat 39948 1000, "Ar".toList),
    (mkRat 39098 1000, "K".toList), (mkRat 40078 1000, "Ca".toList), (mkRat 44956 1000, "Sc".toList),
    (mkRat 47867 1000, "Ti".toList), (mkRat 50942 1000, "V".toList), (mkRat 51996 1000, "Cr".toList),
    (mkRat 54938 1000, "Mn".toList), (mkRat 55845 1000, "Fe".toList), (mkRat 58933 1000, "Co".toList),
    (mkRat 58693 1000, "Ni".toList), (mkRat 63546 1000, "Cu".toList), (mkRat 65380 1000, "Zn".toList),
    (mkRat 69723 1000, "Ga".toList), (mkRat 72640 1000, "Ge".toList), (mkRat 74922 1000, "As".toList),
    (mkRat 78960 1000, "Se".toList), (mkRat 79904 1000, "Br".toList), (mkRat 83798 1000, "Kr".toList) ]

/-- Python min(keys, key = absolute difference) over a list with a running
best: a later key replaces the best only on a strictly smaller difference,
which is exactly how min keeps the first of tied keys. -/
def minByAbsDiff (m : ℚ) : List ℚ → ℚ → ℚ
  | [], best => best
  | x :: xs, best => minByAbsDiff m xs (if absQ (qSub x m) < absQ (qSub best m) then x else best)

/-- The table key closest in absolute difference to the given mass. -/
def closestMass (m : ℚ) : ℚ :=
  match massTable.map Prod.fst with
  | [] => 0
  | k :: ks => minByAbsDiff m ks k

/-- Element symbol stored in the table for a given key. -/
def symbolOf (k : ℚ) : Line :=
  ((massTable.find? (fun p => p.1 == k)).map Prod.snd).getD []

/-- mass_to_element from data_to_xyz.py: nearest table entry, with the
synthetic X label built from int(mass), the Python truncation toward zero,
when the closest entry differs by more than 2.0. -/
def mass_to_element (mass : ℚ) : Line :=
  let closest := closestMass mass
  if absQ (qSub closest mass) > 2 then 'X' :: intChars (pyInt mass)
  else symbolOf closest

/-- The label the claim prescribes for an out-of-range mass: X followed by
round(mass), rounding to the nearest integer. -/
def specRoundLabel (m : ℚ) : Line := 'X' :: intChars (qFloor (qAdd m (mkRat 1 2)))

/-! ## DataFileParser: parse_lammps_data from data_to_xyz.py -/

/-- One parsed atom: id, type and coordinates. -/
structure AtomRec where
  aid : Int
  aty : Int
  ax : ℚ
  ay : ℚ
  az : ℚ
deriving Repr, DecidableEq

/-- The header metadata the first pass of parse_lammps_data accumulates:
declared counts and box bounds. -/
structure HeaderRec where
  nAtoms : Int
  nTypes : Int
  bndX : Option (ℚ × ℚ)
  bndY : Option (ℚ × ℚ)
  bndZ : Option (ℚ × ℚ)
  tiltF : Option (ℚ × ℚ × ℚ)
deriving Repr, DecidableEq

/-- Initial header state: counts zero, no box information. -/
def emptyHeader : HeaderRec := ⟨0, 0, none, none, none, none⟩

/-- What one header-loop iteration of parse_lammps_data does with one line:
set a count, set a bound, set the tilt, do nothing, or raise. -/
inductive HeaderAction where
  | setNA (n : Int)
  | setNT (n : Int)
  | setX (b : ℚ × ℚ)
  | setY (b : ℚ × ℚ)
  | setZ (b : ℚ × ℚ)
  | setTilt (t : ℚ × ℚ × ℚ)
  | keep
  | raise
deriving Repr, DecidableEq

/-- The branch selection of the header loop of parse_lammps_data on one raw
line: the elif chain of keyword-substring tests, with the int and float
conversions of the leading split fields; a conversion of a non-numeric token
or an index past the end of the split line raises. -/
def headerClassify (raw : Line) : HeaderAction :=
  let line := pyStrip raw
  if infixOf "atoms".toList line && !startsWithL "#".toList line then
    match pySplit line with
    | t :: _ =>
      match parseIntTok t with
      | some n => .setNA n
      | none => .raise
    | [] => .raise
  else if infixOf "atom types".toList line && !startsWithL "#".toList line then
    match pySplit line with
    | t :: _ =>
      match parseIntTok t with
      | some n => .setNT n
      | none => .raise
    | [] => .raise
  else if infixOf "xlo xhi".toList line then
    match pySplit line with
    | a :: b :: _ =>
      match pyFloatTok a, pyFloatTok b with
      | some qa, some qb => .setX (qa, qb)
      | _, _ => .raise
    | _ => .raise
  else if infixOf "ylo yhi".toList line then
    match pySplit line with
    | a :: b :: _ =>
      match pyFloatTok a, pyFloatTok b with
      | some qa, some qb => .setY (qa, qb)
      | _, _ => .raise
    | _ => .raise
  else if infixOf "zlo zhi".toList line then
    match pySplit line with
    | a :: b :: _ =>
      match pyFloatTok a, pyFloatTok b with
      | some qa, some qb => .setZ (qa, qb)
      | _, _ => .raise
    | _ => .raise
  else if infixOf "xy xz yz".toList line then
    match pySplit line with
    | a :: b :: c :: _ =>
      match pyFloatTok a, pyFloatTok b, pyFloatTok c with
      | some qa, some qb, some qc => .setTilt (qa, qb, qc)
      | _, _, _ => .raise
    | _ => .raise
  else .keep

/-- One iteration of the header loop of parse_lammps_data on a raw line.
Returns none where the Python code would raise. -/
def headerStep (h : HeaderRec) (raw : Line) : Option HeaderRec :=
  match headerClassify raw with
  | .setNA n => some { h with nAtoms := n }
  | .setNT n => some { h with nTypes := n }
  | .setX b => some { h with bndX := some b }
  | .setY b => some { h with bndY := some b }
  | .setZ b => some { h with bndZ := some b }
  | .setTilt t => some { h with tiltF := some t }
  | .keep => some h
  | .raise => none

/-- Whether the header loop survives a given line; success of headerStep
does not depend on the incoming state. -/
def headerStepOk (raw : Line) : Bool := headerClassify raw != .raise

/-- First line satisfying p, returning the lines after it, as the
section-locating loops of parse_lammps_data do. -/
def findRest (p : Line → Bool) : List Line → Option (List Line)
  | [] => none
  | l :: ls => if p l then some ls else findRest p ls

/-- The Masses section header test: the stripped, lowercased line is exactly
the word masses. -/
def isMassesHeader (l : Line) : Bool := pyLower (pyStrip l) == "masses".toList

/-- The atoms section header test of parse_lammps_data: the raw lowercased
line contains the substring atoms together with a hash character or the
substring atomic. -/
def isAtomsSectionHeader (l : Line) : Bool :=
  infixOf "atoms".toList (pyLower l) &&
    (infixOf "#".toList (pyLower l) || infixOf "atomic".toList (pyLower l))

/-- Blank or comment body line: skipped inside a section. -/
def isSkipLine (s : Line) : Bool := s.isEmpty || startsWithL "#".toList s

/-- Sibling section headers that terminate the Masses body. -/
def massBreak (s : Line) : Bool :=
  startsWithL "atoms".toList (pyLower s) || startsWithL "velocities".toList (pyLower s) ||
    startsWithL "bonds".toList (pyLower s)

/-- Sibling section headers that terminate the atoms body. -/
def atomBreak (s : Line) : Bool :=
  startsWithL "velocities".toList (pyLower s) || startsWithL "bonds".toList (pyLower s)

/-- Python dict assignment on an association list: update the stored entry in
place, or append a new one. -/
def assocUpd : List (Int × ℚ) → Int → ℚ → List (Int × ℚ)
  | [], k, v => [(k, v)]
  | (k0, v0) :: t, k, v => if k0 = k then (k, v) :: t else (k0, v0) :: assocUpd t k v

/-- Body loop of the Masses section: skip blanks and comments, stop at a
sibling section header, store type and mass from lines with at least two
fields, skip shorter lines; a non-numeric field raises, modelled as none. -/
def massLoop : List Line → List (Int × ℚ) → Option (List (Int × ℚ))
  | [], acc => some acc
  | raw :: rest, acc =>
    let s := pyStrip raw
    if isSkipLine s then massLoop rest acc
    else if massBreak s then some acc
    else
      match pySplit s with
      | p0 :: p1 :: _ =>
        match parseIntTok p0, pyFloatTok p1 with
        | some k, some v => massLoop rest (assocUpd acc k v)
        | _, _ => none
      | _ => massLoop rest acc

/-- Locate the Masses section and run its body loop; no header means an empty
mass table, not an error. -/
def parseMassesSection (lines : List Line) : Option (List (Int × ℚ)) :=
  match findRest isMassesHeader lines with
  | none => some []
  | some rest => massLoop rest []

/-- Body loop of the atoms section: skip blanks and comments, stop at a
sibling section header, collect atoms from lines with at least five fields,
skip shorter lines; a non-numeric field raises, modelled as none. -/
def atomLoop : List Line → Option (List AtomRec)
  | [] => some []
  | raw :: rest =>
    let s := pyStrip raw
    if isSkipLine s then atomLoop rest
    else if atomBreak s then some []
    else
      match pySplit s with
      | p0 :: p1 :: p2 :: p3 :: p4 :: _ =>
        match parseIntTok p0, parseIntTok p1, pyFloatTok p2, pyFloatTok p3, pyFloatTok p4 with
        | some i, some t, some x, some y, some z =>
          (atomLoop rest).map (fun l => (⟨i, t, x, y, z⟩ : AtomRec) :: l)
        | _, _, _, _, _ => none
      | _ => atomLoop rest

/-- Locate the atoms section and run its body loop; no recognized header
means an empty atom collection, not an error. -/
def parseAtomsSection (lines : List Line) : Option (List AtomRec) :=
  match findRest isAtomsSectionHeader lines with
  | none => some []
  | some rest => atomLoop rest

/-- The structure parse_lammps_data returns. -/
structure ParsedData where
  atoms : List AtomRec
  masses : List (Int × ℚ)
  header : HeaderRec
deriving Repr, DecidableEq

/-- parse_lammps_data from data_to_xyz.py over the list of file lines:
header pass, Masses section, atoms section; none models an uncaught
exception in any pass. -/
def parse_lammps_data (lines : List Line) : Option ParsedData :=
  match lines.foldlM headerStep emptyHeader, parseMassesSection lines,
      parseAtomsSection lines with
  | some h, some ms, some ats => some ⟨ats, ms, h⟩
  | _, _, _ => none

/-! ## InterchangeWriter: convert_data_to_xyz from data_to_xyz.py -/

/-- The writer sorting step: sorted(atoms, key = id). -/
def sortAtomsById (l : List AtomRec) : List AtomRec :=
  l.insertionSort (fun a b => a.aid ≤ b.aid)

/-- Dict lookup in the parsed mass table. -/
def lookupMass (ms : List (Int × ℚ)) (t : Int) : Option ℚ :=
  (ms.find? (fun p => p.1 == t)).map Prod.snd

/-- type_to_element lookup with the X fallback for an unknown type id. -/
def elementFor (ms : List (Int × ℚ)) (t : Int) : Line :=
  match lookupMass ms t with
  | some m => mass_to_element m
  | none => 'X' :: intChars t

/-- Left-pad with zeros to a given width. -/
def padLeftZeros (w : Nat) (l : Line) : Line := List.replicate (w - l.length) '0' ++ l

/-- Left-pad with spaces to a given width. -/
def padLeftSpaces (w : Nat) (l : Line) : Line := List.replicate (w - l.length) ' ' ++ l

/-- Right-pad with spaces to a given width, as a 2s format field. -/
def padRightSpaces (w : Nat) (l : Line) : Line := l ++ List.replicate (w - l.length) ' '

/-- Nonnegative part of the fixed 6-decimal float format. -/
def fmtF6core (q : ℚ) : Line :=
  let n := (qFloor (qAdd (qMul q 1000000) (mkRat 1 2))).toNat
  natChars (n / 1000000) ++ '.' :: padLeftZeros 6 (natChars (n % 1000000))

/-- The 12.6f format of the writer: six decimals, right-justified to twelve
characters. -/
def fmtFixed6 (q : ℚ) : Line :=
  padLeftSpaces 12 (if q < 0 then '-' :: fmtF6core (-q) else fmtF6core q)

/-- One atom line of the interchange output. -/
def renderAtomLine (ms : List (Int × ℚ)) (a : AtomRec) : Line :=
  padRightSpaces 2 (elementFor ms a.aty) ++
    ' ' :: fmtFixed6 a.ax ++ ' ' :: fmtFixed6 a.ay ++ ' ' :: fmtFixed6 a.az

/-- os.path.basename, modelled as the text after the last slash. -/
def pyBasename (p : Line) : Line := (p.reverse.takeWhile (fun c => c != '/')).reverse

/-- The comment line of the interchange output, with the optional lattice
matrix; reading a missing y or z bound raises, modelled as none. -/
def xyzComment (dataName : Line) (h : HeaderRec) (includeLattice : Bool) : Option Line :=
  let base := "Converted from ".toList ++ pyBasename dataName
  if includeLattice && h.bndX.isSome then
    match h.bndX, h.bndY, h.bndZ with
    | some (xlo, xhi), some (ylo, yhi), some (zlo, zhi) =>
      let lx := pyReprQ (qSub xhi xlo)
      let ly := pyReprQ (qSub yhi ylo)
      let lz := pyReprQ (qSub zhi zlo)
      match h.tiltF with
      | some (xy, xz, yz) =>
        some (base ++ " Lattice=\"".toList ++ lx ++ " 0.0 0.0 ".toList ++ pyReprQ xy ++
          " ".toList ++ ly ++ " 0.0 ".toList ++ pyReprQ xz ++ " ".toList ++ pyReprQ yz ++
          " ".toList ++ lz ++ "\"".toList)
      | none =>
        some (base ++ " Lattice=\"".toList ++ lx ++ " 0.0 0.0 0.0 ".toList ++ ly ++
          " 0.0 0.0 0.0 ".toList ++ lz ++ "\"".toList)
    | _, _, _ => none
  else some base

/-- The lines convert_data_to_xyz writes: atom count, comment, then one line
per atom after the unconditional sort by id. -/
def convert_data_to_xyz_lines (data : ParsedData) (dataName : Line)
    (includeLattice : Bool) : Option (List Line) :=
  let atoms := sortAtomsById data.atoms
  (xyzComment dataName data.header includeLattice).map (fun cm =>
    natChars atoms.length :: cm :: atoms.map (renderAtomLine data.masses))

/-! ## Byte-level file model shared by the scanners -/

/-- A byte of an on-disk file, abstracted to the character it decodes to, or
an invalid byte that is not valid text. -/
inductive PByte where
  | ch (c : Char)
  | inv
deriving Repr, DecidableEq

/-- Decoding with errors equal to ignore, as check.py opens files: invalid
bytes are dropped. -/
def decodeIgnore (bs : List PByte) : List Char :=
  bs.filterMap (fun b => match b with | .ch c => some c | .inv => none)

/-- Strict decoding, as summary.py opens files: any invalid byte raises,
modelled as none. -/
def decodeStrict (bs : List PByte) : Option (List Char) :=
  if bs.all (fun b => match b with | .ch _ => true | .inv => false) then
    some (decodeIgnore bs)
  else none

/-- Modelled from the spec: the decoding the spec prescribes for the log
scanner, replacing each invalid byte with the replacement character instead
of dropping it; no code in the repository implements this. -/
def specDecodeReplace (bs : List PByte) : List Char :=
  bs.map (fun b => match b with | .ch c => c | .inv => '�')

/-! ## LogScanner: the regular-expression searches of summary.py -/

/-- If pat is a prefix of l, the remainder of l after it. -/
def dropPrefixL (pat l : Line) : Option Line :=
  if pat.isPrefixOf l then some (l.drop pat.length) else none

/-- Leftmost-position regular-expression search: try the anchored matcher at
every position, earliest first, as re.search does. -/
def searchA {α : Type} (f : List Char → Option α) : List Char → Option α
  | [] => f []
  | c :: rest =>
    match f (c :: rest) with
    | some v => some v
    | none => searchA f rest

/-- Anchored match of the unsigned digits dot digits semicolon tail of the
summary patterns, returning the captured value. -/
def matchUNumSemi (l : List Char) : Option ℚ :=
  let ds := l.takeWhile Char.isDigit
  if ds.isEmpty then none
  else
    match l.dropWhile Char.isDigit with
    | '.' :: r2 =>
      let fs := r2.takeWhile Char.isDigit
      if fs.isEmpty then none
      else
        match r2.dropWhile Char.isDigit with
        | ';' :: _ => some (qAdd ((digitsToNat ds : Nat) : ℚ) (mkRat ((digitsToNat fs : Nat) : Int) (10 ^ fs.length)))
        | _ => none
    | _ => none

/-- Anchored match of an optionally negated number with semicolon. -/
def matchNumSemi (l : List Char) : Option ℚ :=
  match l with
  | '-' :: r => (matchUNumSemi r).map (fun q => -q)
  | _ => matchUNumSemi l

/-- Anchored match of optional whitespace, equals sign, optional whitespace,
then the signed number with semicolon. -/
def matchEqNumSemi (l : List Char) : Option ℚ :=
  match l.dropWhile isWS with
  | '=' :: r => matchNumSemi (r.dropWhile isWS)
  | _ => none

/-- Anchored match of the total-energy pattern of summary.py. -/
def summaryTotalAt (l : List Char) : Option ℚ :=
  (dropPrefixL "Total energy (eV)".toList l).bind matchEqNumSemi

/-- Anchored match of the cohesive-energy pattern of summary.py. -/
def summaryCohAt (l : List Char) : Option ℚ :=
  (dropPrefixL "Cohesive energy (eV)".toList l).bind matchEqNumSemi

/-- re.search of the total-energy pattern of summary.py over file content. -/
def scan_total (content : List Char) : Option ℚ := searchA summaryTotalAt content

/-- re.search of the cohesive-energy pattern of summary.py over file
content. -/
def scan_cohesive (content : List Char) : Option ℚ := searchA summaryCohAt content

/-- The per-folder read of summary.py: strict decode of the log bytes, then
both energy scans; none models the UnicodeDecodeError the strict read raises,
which only the per-folder handler catches. -/
def summaryReadAndScan (bs : List PByte) : Option (Option ℚ × Option ℚ) :=
  (decodeStrict bs).map (fun content => (scan_total content, scan_cohesive content))

/-! ## DirectoryAggregator: the folder loop of summary.py -/

/-- One row of the summary table; absent derived fields stay typed as
options until rendering. -/
structure EnergyRow where
  folder : Line
  total : ℚ
  cohesive : ℚ
  deltaE : Option ℚ
  formation : Option ℚ
deriving Repr, DecidableEq

/-- One directory entry of the scanned working directory: its name, whether
it is a directory, and the bytes of its log artifact when that file exists. -/
structure FSEntry where
  ename : Line
  edir : Bool
  outRun : Option (List PByte)
deriving Repr, DecidableEq

/-- Row construction of summary.py once both energies matched: delta only
with a parent energy, formation only with both crystal and parent
energies. -/
def mkRow (name : Line) (t c : ℚ) (parent crystal : Option ℚ) : EnergyRow :=
  { folder := name, total := t, cohesive := c,
    deltaE := parent.map (fun p => qSub (qAdd t c) p),
    formation :=
      match crystal, parent with
      | some cc, some p => some (qSub (qAdd t cc) p)
      | _, _ => none }

/-- Python string comparison on names: lexicographic by code point. -/
def lexLeB : Line → Line → Bool
  | [], _ => true
  | _ :: _, [] => false
  | a :: as, b :: bs =>
    if a.toNat < b.toNat then true
    else if b.toNat < a.toNat then false
    else lexLeB as bs

/-- sorted over the directory listing, modelled as a sort of the entries by
name; listing names are distinct, so this matches sorting the name strings
and looking each one up. -/
def sortEntries (fs : List FSEntry) : List FSEntry :=
  fs.insertionSort (fun e1 e2 => lexLeB e1.ename e2.ename = true)

/-- The folder loop of summary.py over the already-sorted entries: a row is
appended only when the entry is a directory whose log artifact exists,
decodes, and yields both energies; every other outcome prints a diagnostic
and continues with no row. -/
def aggLoop (parent crystal : Option ℚ) : List FSEntry → List EnergyRow
  | [] => []
  | e :: rest =>
    if e.edir then
      match e.outRun with
      | none => aggLoop parent crystal rest
      | some bs =>
        match decodeStrict bs with
        | none => aggLoop parent crystal rest
        | some content =>
          match scan_total content, scan_cohesive content with
          | some t, some c => mkRow e.ename t c parent crystal :: aggLoop parent crystal rest
          | _, _ => aggLoop parent crystal rest
    else aggLoop parent crystal rest

/-- The whole aggregation run of summary.py: sort the listing, then the
folder loop. -/
def aggregate (fs : List FSEntry) (parent crystal : Option ℚ) : List EnergyRow :=
  aggLoop parent crystal (sortEntries fs)

/-- The per-entry row characterization used to state what aggregate emits:
some row exactly when the entry is a directory whose log exists, decodes
strictly, and matches both energy patterns. -/
def folderRow (parent crystal : Option ℚ) (e : FSEntry) : Option EnergyRow :=
  if e.edir then
    match e.outRun with
    | none => none
    | some bs =>
      match decodeStrict bs with
      | none => none
      | some content =>
        match scan_total content, scan_cohesive content with
        | some t, some c => some (mkRow e.ename t c parent crystal)
        | _, _ => none
  else none

/-- Rendering of an optional energy in the summary row: the N/A sentinel
when absent. -/
def renderOptQ (o : Option ℚ) : Line :=
  match o with
  | some q => pyReprQ q
  | none => "N/A".toList

/-- One tab-separated summary row as written to the output artifact. -/
def renderRow (r : EnergyRow) : Line :=
  r.folder ++ '\t' :: pyReprQ r.total ++ '\t' :: pyReprQ r.cohesive ++
    '\t' :: renderOptQ r.deltaE ++ '\t' :: renderOptQ r.formation

/-! ## IntegrityChecker: check.py -/

/-- The character class of the captures in check.py. -/
def isNumClassChar (c : Char) : Bool := c.isDigit || c == '-' || c == '.'

/-- Greedy nonempty capture of the number character class. -/
def captureNumClass (l : List Char) : Option (List Char) :=
  let cs := l.takeWhile isNumClassChar
  if cs.isEmpty then none else some cs

/-- Anchored match of the check.py total-energy pattern, single literal
spaces around the equals sign. -/
def checkTotalAt (l : List Char) : Option (List Char) :=
  (dropPrefixL "Total energy (eV) = ".toList l).bind captureNumClass

/-- Anchored match of the check.py cohesive-energy pattern. -/
def checkCohAt (l : List Char) : Option (List Char) :=
  (dropPrefixL "Cohesive energy (eV) = ".toList l).bind captureNumClass

/-- Anchored match of the tabulated potential-energy pattern: the PotEng
literal, one or more whitespace characters, then a number capture. -/
def potEngAt (l : List Char) : Option (List Char) :=
  match dropPrefixL "PotEng".toList l with
  | some (c :: r) =>
    if isWS c then captureNumClass ((c :: r).dropWhile isWS) else none
  | _ => none

/-- Anchored match of the table-header pattern: Step, whitespace, PotEng. -/
def stepPotEngAt (l : List Char) : Option Unit :=
  match dropPrefixL "Step".toList l with
  | some (c :: r) =>
    if isWS c then
      if "PotEng".toList.isPrefixOf ((c :: r).dropWhile isWS) then some () else none
    else none
  | _ => none

/-- The record check_energy_in_output builds. -/
structure CheckInfo where
  hasTotal : Bool
  hasCohesive : Bool
  hasPotData : Bool
  hasHeader : Bool
  totalE : Option ℚ
  cohesiveE : Option ℚ
  fileExists : Bool
  fileSize : Nat
  errorFlag : Bool
deriving Repr, DecidableEq

/-- The try body of check_energy_in_output: ignore-decode the bytes, then
the four pattern searches in order; a capture that float cannot convert
raises, modelled as none propagating out of the body. -/
def checkBody (bs : List PByte) : Option CheckInfo :=
  let content := decodeIgnore bs
  let base : CheckInfo := ⟨false, false, false, false, none, none, true, bs.length, false⟩
  let s1 : Option CheckInfo :=
    match searchA checkTotalAt content with
    | none => some base
    | some cap => (pyFloatTok cap).map (fun v => { base with hasTotal := true, totalE := some v })
  match s1 with
  | none => none
  | some i1 =>
    let s2 : Option CheckInfo :=
      match searchA checkCohAt content with
      | none => some i1
      | some cap =>
        (pyFloatTok cap).map (fun v => { i1 with hasCohesive := true, cohesiveE := some v })
    match s2 with
    | none => none
    | some i2 =>
      let i3 := if (searchA potEngAt content).isSome then { i2 with hasPotData := true } else i2
      let i4 := if (searchA stepPotEngAt content).isSome then { i3 with hasHeader := true } else i3
      some i4

/-- The record the generic exception handler of check_energy_in_output
returns: all flags false, file size reported as zero, error recorded. -/
def errorInfoRec : CheckInfo := ⟨false, false, false, false, none, none, true, 0, true⟩

/-- check_energy_in_output from check.py: the missing-file record, or the
try body with its catch-all fallback. -/
def check_energy_in_output (file : Option (List PByte)) : CheckInfo :=
  match file with
  | none => ⟨false, false, false, false, none, none, false, 0, false⟩
  | some bs => (checkBody bs).getD errorInfoRec

/-- Membership test of main in check.py: a folder lands in the
without-energy list exactly when none of total, cohesive and tabulated
potential-energy data were found. -/
def hasKeyEnergies (i : CheckInfo) : Bool := i.hasTotal || i.hasCohesive || i.hasPotData

/-- The classification main reports for one folder. -/
inductive FolderClass where
  | missingFile
  | withoutEnergy (emptyDetail : Bool)
  | ok
deriving Repr, DecidableEq

/-- The per-folder classification of check.py main: missing log, log without
key energies (carrying whether the report shows the empty-file detail, which
it does exactly when the recorded size is zero), or ok. -/
def classifyFolder (file : Option (List PByte)) : FolderClass :=
  match file with
  | none => .missingFile
  | some bs =>
    let i := check_energy_in_output (some bs)
    if hasKeyEnergies i then .ok
    else .withoutEnergy (i.fileSize == 0)

/-! ## The synthetic structured file of the parser claims -/

/-- A token of one or more decimal digits. -/
def digitTok (t : Line) : Bool := !t.isEmpty && t.all Char.isDigit

/-- The synthetic structured configuration file: declared atom and type
counts with arbitrary digit tokens, a Masses section, then an atoms
section. -/
def mkDataFile (dn dt : Line) (massLines atomLines : List Line) : List Line :=
  (dn ++ " atoms".toList) :: (dt ++ " atom types".toList) :: "Masses".toList ::
    (massLines ++ "Atoms # atomic".toList :: atomLines)

/-- A mass body line with at least two fields that parse: stored by the
Masses loop. -/
def massWF (l : Line) : Bool :=
  let s := pyStrip l
  !isSkipLine s && !massBreak s &&
    (match pySplit s with
     | p0 :: p1 :: _ => (parseIntTok p0).isSome && (pyFloatTok p1).isSome
     | _ => false)

/-- A mass body line the Masses loop skips: blank, comment, or fewer than
two fields. -/
def massSkip (l : Line) : Bool :=
  let s := pyStrip l
  isSkipLine s || (!massBreak s && (pySplit s).length < 2)

/-- A body line that neither trips the header pass nor reads as the atoms
section header. -/
def bodySafe (l : Line) : Bool := headerStepOk l && !isAtomsSectionHeader l

/-- Admissible mass body line: safe for the other passes and either stored
or skipped. -/
def massBodyOk (l : Line) : Bool := bodySafe l && (massWF l || massSkip l)

/-- An atom body line with at least five fields that parse: collected by the
atoms loop. -/
def atomWF (l : Line) : Bool :=
  let s := pyStrip l
  !isSkipLine s && !atomBreak s &&
    (match pySplit s with
     | p0 :: p1 :: p2 :: p3 :: p4 :: _ =>
       (parseIntTok p0).isSome && (parseIntTok p1).isSome && (pyFloatTok p2).isSome &&
         (pyFloatTok p3).isSome && (pyFloatTok p4).isSome
     | _ => false)

/-- An atom body line the atoms loop skips: blank, comment, or fewer than
five fields. -/
def atomSkip (l : Line) : Bool :=
  let s := pyStrip l
  isSkipLine s || (!atomBreak s && (pySplit s).length < 5)

/-- Admissible atom body line: safe for the other passes and either
collected or skipped. -/
def atomBodyOk (l : Line) : Bool := bodySafe l && (atomWF l || atomSkip l)

/-- The type id a mass line stores. -/
def massKey (l : Line) : Option Int :=
  match pySplit (pyStrip l) with
  | p0 :: _ => parseIntTok p0
  | [] => none

/-- Bytes of a plain text file in the byte model. -/
def chBytes (s : List Char) : List PByte := s.map PByte.ch

/-! # Theorems -/

/-! ## General helper lemmas on the text utilities -/

theorem infixOf_iff {pat l : Line} : infixOf pat l = true ↔ pat <:+: l := by
  constructor
  · intro h
    rcases List.any_eq_true.mp h with ⟨t, ht, hpre⟩
    exact List.infix_iff_prefix_suffix.mpr
      ⟨t, List.isPrefixOf_iff_prefix.mp hpre, (List.mem_tails _ _).mp ht⟩
  · intro h
    rcases List.infix_iff_prefix_suffix.mp h with ⟨t, hpre, hsuf⟩
    exact List.any_eq_true.mpr
      ⟨t, (List.mem_tails _ _).mpr hsuf, List.isPrefixOf_iff_prefix.mpr hpre⟩

theorem not_infixOf {pat l : Line} (c : Char) (hc : c ∈ pat) (hl : c ∉ l) :
    infixOf pat l = false := by
  rw [Bool.eq_false_iff]
  intro h
  exact hl ((infixOf_iff.mp h).subset hc)

theorem startsWithL_iff {pat l : Line} : startsWithL pat l = true ↔ pat <+: l :=
  List.isPrefixOf_iff_prefix

theorem digit_toLower {c : Char} (h : c.isDigit = true) : Char.toLower c = c := by
  simp only [Char.isDigit, Bool.and_eq_true, decide_eq_true_eq] at h
  simp only [Char.toLower, Char.toNat]
  rw [if_neg]
  rintro ⟨h1, -⟩
  have h2 : c.val.toNat ≤ 57 := h.2
  omega

theorem digit_not_isWS {c : Char} (h : c.isDigit = true) : isWS c = false := by
  simp only [isWS, Bool.or_eq_false_iff, beq_eq_false_iff_ne, ne_eq]
  refine ⟨⟨⟨⟨⟨?_, ?_⟩, ?_⟩, ?_⟩, ?_⟩, ?_⟩ <;> rintro rfl <;> simp [Char.isDigit] at h

theorem ne_digit_of_not_digit {d c : Char} (hd : d.isDigit = false) (hc : c.isDigit = true) :
    d ≠ c := by
  rintro rfl
  rw [hc] at hd
  cases hd

theorem pyStrip_of {l : Line} (h1 : l.dropWhile isWS = l)
    (h2 : l.reverse.dropWhile isWS = l.reverse) : pyStrip l = l := by
  unfold pyStrip
  rw [h1, h2, List.reverse_reverse]

theorem dropWhile_cons_neg {p : Char → Bool} {c : Char} {t : Line} (h : p c = false) :
    List.dropWhile p (c :: t) = c :: t := by
  simp [List.dropWhile_cons, h]

theorem digitTok_ne {t : Line} (h : digitTok t = true) : t ≠ [] := by
  intro he
  subst he
  simp [digitTok] at h

theorem digitTok_all {t : Line} (h : digitTok t = true) : ∀ c ∈ t, c.isDigit = true := by
  simp only [digitTok, Bool.and_eq_true, List.all_eq_true] at h
  exact h.2

theorem digitTok_nonws {t : Line} (h : digitTok t = true) :
    t.all (fun c => !isWS c) = true := by
  simp only [List.all_eq_true]
  intro c hc
  simp [digit_not_isWS (digitTok_all h c hc)]

theorem pyStrip_tok_line {dn rest : Line} {c : Char} (hdn : digitTok dn = true)
    (hc : isWS c = false) : pyStrip (dn ++ (rest ++ [c])) = dn ++ (rest ++ [c]) := by
  obtain ⟨d, t, rfl⟩ : ∃ d t, dn = d :: t := by
    cases dn with
    | nil => exact absurd rfl (digitTok_ne hdn)
    | cons d t => exact ⟨d, t, rfl⟩
  have hd : d.isDigit = true := digitTok_all hdn d (List.mem_cons_self d t)
  apply pyStrip_of
  · rw [List.cons_append]
    exact dropWhile_cons_neg (digit_not_isWS hd)
  · have hrev : ((d :: t) ++ (rest ++ [c])).reverse =
        c :: (rest.reverse ++ ((d :: t).reverse : Line)) := by
      simp
    rw [hrev]
    rw [dropWhile_cons_neg hc, ← hrev]

theorem pySplitAux_nonws {tok : Line} (h : tok.all (fun c => !isWS c) = true) :
    ∀ (l acc : Line), pySplitAux (tok ++ l) acc = pySplitAux l (tok.reverse ++ acc) := by
  induction tok with
  | nil => intro l acc; simp
  | cons c t ih =>
    intro l acc
    simp only [List.all_cons, Bool.and_eq_true] at h
    have hc : isWS c = false := by
      rcases h with ⟨h1, -⟩
      cases hws : isWS c
      · rfl
      · rw [hws] at h1; cases h1
    show pySplitAux (c :: (t ++ l)) acc = pySplitAux l ((c :: t).reverse ++ acc)
    simp only [pySplitAux, hc, Bool.false_eq_true, if_false]
    rw [show pySplitAux (t ++ l) (c :: acc) = pySplitAux l (t.reverse ++ (c :: acc)) from
      ih h.2 l (c :: acc)]
    congr 1
    simp

theorem pySplit_tok_space {tok rest : Line} (hne : tok ≠ [])
    (h : tok.all (fun c => !isWS c) = true) :
    pySplit (tok ++ ' ' :: rest) = tok :: pySplit rest := by
  unfold pySplit
  rw [pySplitAux_nonws h]
  simp only [pySplitAux]
  rw [if_pos (by decide), if_neg (by simpa [List.isEmpty_iff] using hne)]
  simp

/-! ## Lemmas about the element resolver -/

theorem absQ_eq_abs (q : ℚ) : absQ q = |q| := by
  unfold absQ
  rcases lt_or_le q 0 with h | h
  · rw [if_pos h, abs_of_neg h]
  · rw [if_neg (not_lt.mpr h), abs_of_nonneg h]

theorem qAdd_eq (a b : ℚ) : qAdd a b = a + b := by
  unfold qAdd
  rw [Rat.mkRat_eq_div]
  push_cast
  have hda : ((a.den : ℚ)) ≠ 0 := by
    exact_mod_cast a.den_nz
  have hdb : ((b.den : ℚ)) ≠ 0 := by
    exact_mod_cast b.den_nz
  conv_rhs => rw [← Rat.num_div_den a, ← Rat.num_div_den b]
  field_simp

theorem qSub_eq (a b : ℚ) : qSub a b = a - b := by
  unfold qSub
  rw [qAdd_eq, sub_eq_add_neg]

theorem qMul_eq (a b : ℚ) : qMul a b = a * b := by
  unfold qMul
  rw [Rat.mkRat_eq_div]
  push_cast
  have hda : ((a.den : ℚ)) ≠ 0 := by
    exact_mod_cast a.den_nz
  have hdb : ((b.den : ℚ)) ≠ 0 := by
    exact_mod_cast b.den_nz
  conv_rhs => rw [← Rat.num_div_den a, ← Rat.num_div_den b]
  field_simp

theorem minByAbsDiff_mem (m : ℚ) :
    ∀ (xs : List ℚ) (best : ℚ), minByAbsDiff m xs best ∈ best :: xs
  | [], best => by simp [minByAbsDiff]
  | x :: xs, best => by
    simp only [minByAbsDiff]
    have h := minByAbsDiff_mem m xs (if absQ (qSub x m) < absQ (qSub best m) then x else best)
    rcases List.mem_cons.mp h with h1 | h2
    · rw [h1]
      split
      · simp
      · simp
    · simp [List.mem_cons, h2]

theorem minByAbsDiff_le (m : ℚ) :
    ∀ (xs : List ℚ) (best : ℚ), ∀ y ∈ best :: xs,
      absQ (qSub (minByAbsDiff m xs best) m) ≤ absQ (qSub y m)
  | [], best => by
    intro y hy
    rcases List.mem_cons.mp hy with rfl | h
    · simp [minByAbsDiff]
    · simp at h
  | x :: xs, best => by
    intro y hy
    simp only [minByAbsDiff]
    have hself : absQ (qSub (minByAbsDiff m xs
          (if absQ (qSub x m) < absQ (qSub best m) then x else best)) m) ≤
        absQ (qSub (if absQ (qSub x m) < absQ (qSub best m) then x else best) m) :=
      minByAbsDiff_le m xs _ _ (List.mem_cons_self _ _)
    rcases List.mem_cons.mp hy with rfl | hy2
    · refine le_trans hself ?_
      split
      · next hlt => exact le_of_lt hlt
      · exact le_refl _
    · rcases List.mem_cons.mp hy2 with rfl | hy3
      · refine le_trans hself ?_
        split
        · exact le_refl _
        · next hnlt => exact le_of_not_lt hnlt
      · exact minByAbsDiff_le m xs _ y (List.mem_cons_of_mem _ hy3)

theorem closestMass_le (m : ℚ) :
    ∀ y ∈ massTable.map Prod.fst, |closestMass m - m| ≤ |y - m| := by
  intro y hy
  rw [← absQ_eq_abs, ← absQ_eq_abs, ← qSub_eq, ← qSub_eq]
  exact minByAbsDiff_le m _ _ y hy

/-! ## C3: the element resolver -/

/-- C3 counterexample: the claim says an out-of-tolerance mass resolves to
X followed by round(mass); at mass 200.7 the code truncates and yields X200,
not the X201 the claim prescribes. -/
theorem c3_counterexample :
    mass_to_element (mkRat 2007 10) = "X200".toList ∧
    specRoundLabel (mkRat 2007 10) = "X201".toList ∧
    mass_to_element (mkRat 2007 10) ≠ specRoundLabel (mkRat 2007 10) := by
  refine ⟨by decide, by decide, by decide⟩

/-- C3 amended: mass_to_element returns the symbol of the closest table
entry when its distance is within the 2.0 tolerance, and otherwise the label
X followed by int(mass), which truncates toward zero rather than rounding;
the three concrete resolutions of the claim all hold. -/
theorem c3_amended (m : ℚ) :
    (∀ y ∈ massTable.map Prod.fst, |closestMass m - m| ≤ |y - m|) ∧
    (|closestMass m - m| ≤ 2 → mass_to_element m = symbolOf (closestMass m)) ∧
    (2 < |closestMass m - m| → mass_to_element m = 'X' :: intChars (pyInt m)) ∧
    mass_to_element (mkRat 12011 1000) = "C".toList ∧
    mass_to_element (mkRat 25 2) = "C".toList ∧
    mass_to_element 200 = "X200".toList := by
  refine ⟨closestMass_le m, ?_, ?_, by decide, by decide, by decide⟩
  · intro h
    unfold mass_to_element
    rw [if_neg]
    rw [qSub_eq, absQ_eq_abs]
    exact not_lt.mpr h
  · intro h
    unfold mass_to_element
    rw [if_pos]
    rw [qSub_eq, absQ_eq_abs]
    exact h

/-- C3 witness: the amended theorem applied at mass 12.011 with its
tolerance hypothesis discharged. -/
theorem c3_amended_witness :
    |closestMass (mkRat 12011 1000) - (mkRat 12011 1000)| ≤ 2 ∧
    mass_to_element (mkRat 12011 1000) = symbolOf (closestMass (mkRat 12011 1000)) :=
  ⟨by rw [← absQ_eq_abs, ← qSub_eq]; decide,
    (c3_amended (mkRat 12011 1000)).2.1 (by rw [← absQ_eq_abs, ← qSub_eq]; decide)⟩

/-! ## Lemmas about the header pass of the parser -/

theorem parseIntTok_digits {t : Line} (h : digitTok t = true) :
    parseIntTok t = some ((digitsToNat t : Nat) : Int) := by
  obtain ⟨d, r, rfl⟩ : ∃ d r, t = d :: r := by
    cases t with
    | nil => exact absurd rfl (digitTok_ne h)
    | cons d r => exact ⟨d, r, rfl⟩
  have hd : d.isDigit = true := digitTok_all h d (List.mem_cons_self d r)
  show (if d = '-' then (digitsVal r).map (fun n => -(n : Int))
    else if d = '+' then (digitsVal r).map (fun n => (n : Int))
    else (digitsVal (d :: r)).map (fun n => (n : Int))) = some ((digitsToNat (d :: r) : Nat) : Int)
  rw [if_neg (ne_digit_of_not_digit (show ('-').isDigit = false by decide) hd).symm]
  rw [if_neg (ne_digit_of_not_digit (show ('+').isDigit = false by decide) hd).symm]
  unfold digitsVal
  unfold digitTok at h
  rw [if_pos h]
  rfl

theorem headerStep_isSome {l : Line} (h : headerStepOk l = true) (hr : HeaderRec) :
    (headerStep hr l).isSome = true := by
  unfold headerStepOk at h
  unfold headerStep
  cases hc : headerClassify l <;> first
    | rfl
    | (rw [hc] at h; simp at h)

theorem foldlM_headerStep_isSome :
    ∀ (lines : List Line), (∀ l ∈ lines, headerStepOk l = true) →
      ∀ h0 : HeaderRec, (List.foldlM headerStep h0 lines).isSome = true
  | [], _, h0 => by simp [List.foldlM]
  | a :: ls, hall, h0 => by
    rw [List.foldlM_cons]
    have h1 := headerStep_isSome (hall a (List.mem_cons_self a ls)) h0
    cases hs : headerStep h0 a with
    | none => rw [hs] at h1; cases h1
    | some hb =>
      exact foldlM_headerStep_isSome ls (fun l hl => hall l (List.mem_cons_of_mem a hl)) hb

theorem infixOf_suffix {pat l x : Line} (h : l = x ++ pat) : infixOf pat l = true := by
  subst h
  exact infixOf_iff.mpr (List.suffix_append x pat).isInfix

theorem startsWith_hash_digit {dn : Line} (h : digitTok dn = true) (rest : Line) :
    startsWithL "#".toList (dn ++ rest) = false := by
  obtain ⟨d, r, rfl⟩ : ∃ d r, dn = d :: r := by
    cases dn with
    | nil => exact absurd rfl (digitTok_ne h)
    | cons d r => exact ⟨d, r, rfl⟩
  have hd : d.isDigit = true := digitTok_all h d (List.mem_cons_self d r)
  show List.isPrefixOf ['#'] (d :: (r ++ rest)) = false
  simp only [List.isPrefixOf, Bool.and_eq_false_iff]
  left
  exact beq_eq_false_iff_ne.mpr (ne_digit_of_not_digit (by decide) hd)

theorem pyStrip_dn_atoms {dn : Line} (h : digitTok dn = true) :
    pyStrip (dn ++ " atoms".toList) = dn ++ " atoms".toList := by
  have h1 : (" atoms".toList : Line) = " atom".toList ++ ['s'] := rfl
  rw [h1]
  exact pyStrip_tok_line h (by decide)

theorem pyStrip_dt_types {dt : Line} (h : digitTok dt = true) :
    pyStrip (dt ++ " atom types".toList) = dt ++ " atom types".toList := by
  have h1 : (" atom types".toList : Line) = " atom type".toList ++ ['s'] := rfl
  rw [h1]
  exact pyStrip_tok_line h (by decide)

theorem pySplit_dn_atoms {dn : Line} (h : digitTok dn = true) :
    pySplit (dn ++ " atoms".toList) = [dn, "atoms".toList] := by
  have h1 : (" atoms".toList : Line) = ' ' :: "atoms".toList := rfl
  rw [h1, pySplit_tok_space (digitTok_ne h) (digitTok_nonws h)]
  rfl

theorem pySplit_dt_types {dt : Line} (h : digitTok dt = true) :
    pySplit (dt ++ " atom types".toList) = [dt, "atom".toList, "types".toList] := by
  have h1 : (" atom types".toList : Line) = ' ' :: "atom types".toList := rfl
  rw [h1, pySplit_tok_space (digitTok_ne h) (digitTok_nonws h)]
  rfl

theorem headerClassify_dn_atoms {dn : Line} (h : digitTok dn = true) :
    headerClassify (dn ++ " atoms".toList) = .setNA ((digitsToNat dn : Nat) : Int) := by
  unfold headerClassify
  rw [pyStrip_dn_atoms h]
  rw [if_pos (show (infixOf "atoms".toList (dn ++ " atoms".toList) &&
      !startsWithL "#".toList (dn ++ " atoms".toList)) = true by
    rw [infixOf_suffix (show dn ++ " atoms".toList = (dn ++ [' ']) ++ "atoms".toList by simp),
      startsWith_hash_digit h]
    rfl)]
  rw [pySplit_dn_atoms h]
  change (match parseIntTok dn with
    | some n => HeaderAction.setNA n
    | none => HeaderAction.raise) = _
  rw [parseIntTok_digits h]

theorem headerStepOk_dn_atoms {dn : Line} (h : digitTok dn = true) :
    headerStepOk (dn ++ " atoms".toList) = true := by
  unfold headerStepOk
  rw [headerClassify_dn_atoms h]
  rfl

theorem headerStepOk_dt_types {dt : Line} (h : digitTok dt = true) :
    headerStepOk (dt ++ " atom types".toList) = true := by
  unfold headerStepOk
  unfold headerClassify
  rw [pyStrip_dt_types h]
  have hsw : startsWithL "#".toList (dt ++ " atom types".toList) = false :=
    startsWith_hash_digit h _
  cases hinf : infixOf "atoms".toList (dt ++ " atom types".toList) with
  | true =>
    rw [if_pos (by rw [hinf, hsw]; rfl)]
    rw [pySplit_dt_types h]
    change ((match parseIntTok dt with
      | some n => HeaderAction.setNA n
      | none => HeaderAction.raise) != HeaderAction.raise) = true
    rw [parseIntTok_digits h]
    rfl
  | false =>
    rw [if_neg (by rw [hinf]; simp)]
    rw [if_pos (show (infixOf "atom types".toList (dt ++ " atom types".toList) &&
        !startsWithL "#".toList (dt ++ " atom types".toList)) = true by
      rw [infixOf_suffix (show dt ++ " atom types".toList =
          (dt ++ [' ']) ++ "atom types".toList by simp), hsw]
      rfl)]
    rw [pySplit_dt_types h]
    change ((match parseIntTok dt with
      | some n => HeaderAction.setNT n
      | none => HeaderAction.raise) != HeaderAction.raise) = true
    rw [parseIntTok_digits h]
    rfl

/-! ## Lemmas about locating the sections -/

theorem mem_pyLower_self {c : Char} {l : Line} (hc : c ∈ l) (hlow : Char.toLower c = c) :
    c ∈ pyLower l := by
  unfold pyLower
  have := List.mem_map_of_mem Char.toLower hc
  rwa [hlow] at this

theorem not_massesHeader_space {l : Line} (hs : pyStrip l = l) (hmem : ' ' ∈ l) :
    isMassesHeader l = false := by
  rw [Bool.eq_false_iff]
  intro hb
  unfold isMassesHeader at hb
  rw [hs] at hb
  have heq : pyLower l = "masses".toList := by
    exact beq_iff_eq.mp hb
  have hsp : ' ' ∈ pyLower l := mem_pyLower_self hmem (by decide)
  rw [heq] at hsp
  exact absurd hsp (by decide)

theorem not_mem_pyLower {d : Char} {l : Line}
    (h : ∀ c ∈ l, Char.toLower c ≠ d) : d ∉ pyLower l := by
  intro hd
  rcases List.mem_map.mp hd with ⟨c, hc, hcd⟩
  exact h c hc hcd

theorem toLower_digit_ne {c d : Char} (hc : c.isDigit = true) (hd : d.isDigit = false) :
    Char.toLower c ≠ d := by
  rw [digit_toLower hc]
  exact (ne_digit_of_not_digit hd hc).symm

theorem not_atomsHeader_of {l : Line} (h1 : '#' ∉ pyLower l) (h2 : 'c' ∉ pyLower l) :
    isAtomsSectionHeader l = false := by
  unfold isAtomsSectionHeader
  rw [@not_infixOf "#".toList (pyLower l) '#' (by decide) h1,
    @not_infixOf "atomic".toList (pyLower l) 'c' (by decide) h2]
  simp

theorem not_atomsHeader_digit_line {dn suf : Line} (h : digitTok dn = true)
    (hsuf1 : ∀ c ∈ suf, Char.toLower c ≠ '#')
    (hsuf2 : ∀ c ∈ suf, Char.toLower c ≠ 'c') :
    isAtomsSectionHeader (dn ++ suf) = false := by
  apply not_atomsHeader_of
  · apply not_mem_pyLower
    intro c hc
    rcases List.mem_append.mp hc with hcd | hcs
    · exact toLower_digit_ne (digitTok_all h c hcd) (by decide)
    · exact hsuf1 c hcs
  · apply not_mem_pyLower
    intro c hc
    rcases List.mem_append.mp hc with hcd | hcs
    · exact toLower_digit_ne (digitTok_all h c hcd) (by decide)
    · exact hsuf2 c hcs

theorem findRest_cons_pos {p : Line → Bool} {l : Line} {ls : List Line} (h : p l = true) :
    findRest p (l :: ls) = some ls := by
  simp [findRest, h]

theorem findRest_cons_neg {p : Line → Bool} {l : Line} {ls : List Line} (h : p l = false) :
    findRest p (l :: ls) = findRest p ls := by
  simp [findRest, h]

theorem findRest_append {p : Line → Bool} {xs : List Line} {l : Line} {ys : List Line}
    (h1 : ∀ x ∈ xs, p x = false) (h2 : p l = true) :
    findRest p (xs ++ l :: ys) = some ys := by
  induction xs with
  | nil => simpa using findRest_cons_pos h2
  | cons a t ih =>
    rw [List.cons_append, findRest_cons_neg (h1 a (List.mem_cons_self a t))]
    exact ih (fun x hx => h1 x (List.mem_cons_of_mem a hx))

theorem findRest_some {p : Line → Bool} :
    ∀ {ls r : List Line}, findRest p ls = some r → ∃ l ∈ ls, p l = true := by
  intro ls
  induction ls with
  | nil => intro r h; cases h
  | cons a t ih =>
    intro r h
    unfold findRest at h
    by_cases hp : p a = true
    · exact ⟨a, List.mem_cons_self a t, hp⟩
    · rw [if_neg hp] at h
      rcases ih h with ⟨l, hl, hpl⟩
      exact ⟨l, List.mem_cons_of_mem a hl, hpl⟩

/-! ## Lemmas about the section body loops -/

theorem assocUpd_fresh : ∀ {acc : List (Int × ℚ)} {k : Int} {v : ℚ},
    k ∉ acc.map Prod.fst → assocUpd acc k v = acc ++ [(k, v)]
  | [], _, _, _ => rfl
  | (k0, v0) :: t, k, v, h => by
    simp only [List.map_cons, List.mem_cons] at h
    push_neg at h
    unfold assocUpd
    rw [if_neg (fun he => h.1 (he.symm)), assocUpd_fresh h.2]
    rfl

theorem massWF_key_isSome {l : Line} (h : massWF l = true) : (massKey l).isSome = true := by
  simp only [massWF] at h
  unfold massKey
  rcases hps : pySplit (pyStrip l) with _ | ⟨p0, pr⟩
  · rw [hps] at h; simp at h
  rcases pr with _ | ⟨p1, pt⟩
  · rw [hps] at h; simp at h
  rw [hps] at h
  simp only [Bool.and_eq_true] at h
  exact h.2.1

theorem filterMap_isSome_length {α β : Type} (f : α → Option β) :
    ∀ {L : List α}, (∀ x ∈ L, (f x).isSome = true) → (L.filterMap f).length = L.length
  | [], _ => rfl
  | a :: t, h => by
    have ha := h a (List.mem_cons_self a t)
    rcases hf : f a with _ | b
    · rw [hf] at ha; cases ha
    · rw [List.filterMap_cons, hf]
      simp only [List.length_cons]
      rw [filterMap_isSome_length f (fun x hx => h x (List.mem_cons_of_mem a hx))]

theorem massLoop_spec (rest : List Line) :
    ∀ (ls : List Line) (acc : List (Int × ℚ)),
      (∀ l ∈ ls, massBodyOk l = true) →
      (acc.map Prod.fst ++ (ls.filter massWF).filterMap massKey).Nodup →
      ∃ r, massLoop (ls ++ "Atoms # atomic".toList :: rest) acc = some r ∧
        r.map Prod.fst = acc.map Prod.fst ++ (ls.filter massWF).filterMap massKey
  | [], acc, _, _ => by
    refine ⟨acc, ?_, by simp⟩
    have e1 : isSkipLine (pyStrip ("Atoms # atomic".toList)) = false := by decide
    have e2 : massBreak (pyStrip ("Atoms # atomic".toList)) = true := by decide
    simp only [List.nil_append, massLoop, e1, e2, Bool.false_eq_true, if_false, if_true]
  | l :: ls, acc, hall, hnd => by
    have hbody := hall l (List.mem_cons_self l ls)
    have hall' : ∀ x ∈ ls, massBodyOk x = true :=
      fun x hx => hall x (List.mem_cons_of_mem l hx)
    unfold massBodyOk at hbody
    rw [Bool.and_eq_true] at hbody
    rcases hbody with ⟨-, hwfs⟩
    rw [Bool.or_eq_true] at hwfs
    rcases hwfs with hwf | hskip
    · -- the loop stores this line
      have hwf0 := hwf
      simp only [massWF] at hwf
      rcases hps : pySplit (pyStrip l) with _ | ⟨p0, pr⟩
      · rw [hps] at hwf; simp at hwf
      rcases pr with _ | ⟨p1, pt⟩
      · rw [hps] at hwf; simp at hwf
      rw [hps] at hwf
      simp only [Bool.and_eq_true] at hwf
      obtain ⟨⟨hsk, hbrk⟩, hk1, hv1⟩ := hwf
      rw [Bool.not_eq_true'] at hsk hbrk
      rw [Option.isSome_iff_exists] at hk1 hv1
      obtain ⟨k, hk⟩ := hk1
      obtain ⟨v, hv⟩ := hv1
      have hkey : massKey l = some k := by
        unfold massKey
        rw [hps]
        exact hk
      have hfil : (l :: ls).filter massWF = l :: ls.filter massWF :=
        List.filter_cons_of_pos hwf0
      have hfm : ((l :: ls).filter massWF).filterMap massKey =
          k :: (ls.filter massWF).filterMap massKey := by
        rw [hfil, List.filterMap_cons, hkey]
      rw [hfm] at hnd
      have hknotin : k ∉ acc.map Prod.fst := by
        rcases List.nodup_append.mp hnd with ⟨-, -, hdisj⟩
        intro hmem
        exact hdisj hmem (List.mem_cons_self _ _)
      have hupd : (assocUpd acc k v).map Prod.fst = acc.map Prod.fst ++ [k] := by
        rw [assocUpd_fresh hknotin]
        simp
      have hnd' : ((assocUpd acc k v).map Prod.fst ++
          (ls.filter massWF).filterMap massKey).Nodup := by
        rw [hupd, List.append_assoc]
        exact hnd
      obtain ⟨r, hr1, hr2⟩ := massLoop_spec rest ls (assocUpd acc k v) hall' hnd'
      refine ⟨r, ?_, ?_⟩
      · rw [List.cons_append]
        show massLoop (l :: (ls ++ "Atoms # atomic".toList :: rest)) acc = some r
        simp only [massLoop, hsk, hbrk, hps, hk, hv, Bool.false_eq_true, if_false]
        exact hr1
      · rw [hr2, hupd, hfm, List.append_assoc]
        rfl
    · -- the loop skips this line
      have hwfneg : massWF l = false := by
        simp only [massSkip] at hskip
        simp only [massWF]
        rw [Bool.or_eq_true] at hskip
        rcases hskip with hsk | hrest
        · rw [hsk]
          rfl
        · rw [Bool.and_eq_true] at hrest
          rcases hrest with ⟨-, hlen⟩
          have hlen2 := of_decide_eq_true hlen
          rcases hps : pySplit (pyStrip l) with _ | ⟨p0, pr⟩
          · simp
          rcases pr with _ | ⟨p1, pt⟩
          · simp
          rw [hps] at hlen2
          simp at hlen2
          omega
      have hfil : (l :: ls).filter massWF = ls.filter massWF :=
        List.filter_cons_of_neg (by rw [hwfneg]; exact Bool.false_ne_true)
      rw [hfil] at hnd
      obtain ⟨r, hr1, hr2⟩ := massLoop_spec rest ls acc hall' hnd
      refine ⟨r, ?_, by rw [hr2, hfil]⟩
      rw [List.cons_append]
      show massLoop (l :: (ls ++ "Atoms # atomic".toList :: rest)) acc = some r
      simp only [massSkip] at hskip
      rw [Bool.or_eq_true] at hskip
      rcases hskip2 : isSkipLine (pyStrip l) with _ | _
      · -- not blank: short line that the match skips
        rcases hskip with hsk | hrest
        · rw [hskip2] at hsk; cases hsk
        · rw [Bool.and_eq_true] at hrest
          rcases hrest with ⟨hbrk, hlen⟩
          rw [Bool.not_eq_true'] at hbrk
          have hlen2 := of_decide_eq_true hlen
          rcases hps : pySplit (pyStrip l) with _ | ⟨p0, pr⟩
          · simp only [massLoop, hskip2, hbrk, hps, Bool.false_eq_true, if_false]
            exact hr1
          · rcases pr with _ | ⟨p1, pt⟩
            · simp only [massLoop, hskip2, hbrk, hps, Bool.false_eq_true, if_false]
              exact hr1
            · rw [hps] at hlen2
              simp at hlen2
              omega
      · simp only [massLoop, hskip2, if_true]
        exact hr1

theorem atomLoop_spec :
    ∀ (ls : List Line), (∀ l ∈ ls, atomBodyOk l = true) →
      ∃ r, atomLoop ls = some r ∧ r.length = (ls.filter atomWF).length
  | [], _ => ⟨[], rfl, by simp⟩
  | l :: ls, hall => by
    have hbody := hall l (List.mem_cons_self l ls)
    have hall' : ∀ x ∈ ls, atomBodyOk x = true :=
      fun x hx => hall x (List.mem_cons_of_mem l hx)
    unfold atomBodyOk at hbody
    rw [Bool.and_eq_true] at hbody
    rcases hbody with ⟨-, hwfs⟩
    rw [Bool.or_eq_true] at hwfs
    obtain ⟨r, hr1, hr2⟩ := atomLoop_spec ls hall'
    rcases hwfs with hwf | hskip
    · have hwf0 := hwf
      simp only [atomWF] at hwf
      rcases hps : pySplit (pyStrip l) with _ | ⟨p0, pr⟩
      · rw [hps] at hwf; simp at hwf
      rcases pr with _ | ⟨p1, pr2⟩
      · rw [hps] at hwf; simp at hwf
      rcases pr2 with _ | ⟨p2, pr3⟩
      · rw [hps] at hwf; simp at hwf
      rcases pr3 with _ | ⟨p3, pr4⟩
      · rw [hps] at hwf; simp at hwf
      rcases pr4 with _ | ⟨p4, pt⟩
      · rw [hps] at hwf; simp at hwf
      rw [hps] at hwf
      simp only [Bool.and_eq_true] at hwf
      obtain ⟨⟨hsk, hbrk⟩, ⟨⟨⟨⟨hi1, ht1⟩, hx1⟩, hy1⟩, hz1⟩⟩ := hwf
      rw [Bool.not_eq_true'] at hsk hbrk
      rw [Option.isSome_iff_exists] at hi1 ht1 hx1 hy1 hz1
      obtain ⟨i, hi⟩ := hi1
      obtain ⟨t, ht⟩ := ht1
      obtain ⟨x, hx⟩ := hx1
      obtain ⟨y, hy⟩ := hy1
      obtain ⟨z, hz⟩ := hz1
      refine ⟨⟨i, t, x, y, z⟩ :: r, ?_, ?_⟩
      · show atomLoop (l :: ls) = some _
        simp only [atomLoop, hsk, hbrk, hps, hi, ht, hx, hy, hz, Bool.false_eq_true, if_false]
        rw [hr1]
        rfl
      · rw [List.filter_cons_of_pos hwf0]
        simp only [List.length_cons]
        rw [hr2]
    · have hwfneg : atomWF l = false := by
        simp only [atomSkip] at hskip
        simp only [atomWF]
        rw [Bool.or_eq_true] at hskip
        rcases hskip with hsk | hrest
        · rw [hsk]
          rfl
        · rw [Bool.and_eq_true] at hrest
          rcases hrest with ⟨-, hlen⟩
          have hlen2 := of_decide_eq_true hlen
          rcases hps : pySplit (pyStrip l) with _ | ⟨p0, pr⟩
          · simp
          rcases pr with _ | ⟨p1, pr2⟩
          · simp
          rcases pr2 with _ | ⟨p2, pr3⟩
          · simp
          rcases pr3 with _ | ⟨p3, pr4⟩
          · simp
          rcases pr4 with _ | ⟨p4, pt⟩
          · simp
          rw [hps] at hlen2
          simp at hlen2
          omega
      refine ⟨r, ?_, ?_⟩
      · show atomLoop (l :: ls) = some r
        simp only [atomSkip] at hskip
        rw [Bool.or_eq_true] at hskip
        rcases hskip2 : isSkipLine (pyStrip l) with _ | _
        · rcases hskip with hsk | hrest
          · rw [hskip2] at hsk; cases hsk
          · rw [Bool.and_eq_true] at hrest
            rcases hrest with ⟨hbrk, hlen⟩
            rw [Bool.not_eq_true'] at hbrk
            have hlen2 := of_decide_eq_true hlen
            rcases hps : pySplit (pyStrip l) with _ | ⟨p0, pr⟩
            · simp only [atomLoop, hskip2, hbrk, hps, Bool.false_eq_true, if_false]
              exact hr1
            · rcases pr with _ | ⟨p1, pr2⟩
              · simp only [atomLoop, hskip2, hbrk, hps, Bool.false_eq_true, if_false]
                exact hr1
              · rcases pr2 with _ | ⟨p2, pr3⟩
                · simp only [atomLoop, hskip2, hbrk, hps, Bool.false_eq_true, if_false]
                  exact hr1
                · rcases pr3 with _ | ⟨p3, pr4⟩
                  · simp only [atomLoop, hskip2, hbrk, hps, Bool.false_eq_true, if_false]
                    exact hr1
                  · rcases pr4 with _ | ⟨p4, pt⟩
                    · simp only [atomLoop, hskip2, hbrk, hps, Bool.false_eq_true, if_false]
                      exact hr1
                    · rw [hps] at hlen2
                      simp at hlen2
                      omega
        · simp only [atomLoop, hskip2, if_true]
          exact hr1
      · rw [List.filter_cons_of_neg (by rw [hwfneg]; exact Bool.false_ne_true), hr2]


/-! ## C4 and C10: the structured-file parser -/

theorem massBodyOk_bodySafe {l : Line} (h : massBodyOk l = true) : bodySafe l = true := by
  unfold massBodyOk at h
  rw [Bool.and_eq_true] at h
  exact h.1

theorem atomBodyOk_bodySafe {l : Line} (h : atomBodyOk l = true) : bodySafe l = true := by
  unfold atomBodyOk at h
  rw [Bool.and_eq_true] at h
  exact h.1

theorem bodySafe_headerStepOk {l : Line} (h : bodySafe l = true) : headerStepOk l = true := by
  unfold bodySafe at h
  rw [Bool.and_eq_true] at h
  exact h.1

theorem bodySafe_not_atomsHeader {l : Line} (h : bodySafe l = true) :
    isAtomsSectionHeader l = false := by
  unfold bodySafe at h
  rw [Bool.and_eq_true] at h
  have h2 := h.2
  rw [Bool.not_eq_true'] at h2
  exact h2

/-- C4 amended: for the synthetic structured file, with arbitrary declared
header counts, the parsed structure holds exactly one atom per well-formed
atom line and one mass entry per well-formed mass line with pairwise
distinct type ids; shorter body lines are skipped and never abort the
parse.  Well-formed here also requires the leading fields to parse as
numbers, since a non-numeric field raises in the source. -/
theorem c4_amended (dn dt : Line) (massLines atomLines : List Line)
    (hdn : digitTok dn = true) (hdt : digitTok dt = true)
    (hm : ∀ l ∈ massLines, massBodyOk l = true)
    (ha : ∀ l ∈ atomLines, atomBodyOk l = true)
    (hkeys : ((massLines.filter massWF).filterMap massKey).Nodup) :
    ∃ s, parse_lammps_data (mkDataFile dn dt massLines atomLines) = some s ∧
      s.atoms.length = (atomLines.filter atomWF).length ∧
      s.masses.length = (massLines.filter massWF).length := by
  have hfold : (List.foldlM headerStep emptyHeader
      (mkDataFile dn dt massLines atomLines)).isSome = true := by
    apply foldlM_headerStep_isSome
    intro l hl
    unfold mkDataFile at hl
    simp only [List.mem_cons, List.mem_append] at hl
    rcases hl with rfl | rfl | rfl | hl | rfl | hl
    · exact headerStepOk_dn_atoms hdn
    · exact headerStepOk_dt_types hdt
    · decide
    · exact bodySafe_headerStepOk (massBodyOk_bodySafe (hm l hl))
    · decide
    · exact bodySafe_headerStepOk (atomBodyOk_bodySafe (ha l hl))
  rw [Option.isSome_iff_exists] at hfold
  obtain ⟨hdr, hhdr⟩ := hfold
  have hfindM : findRest isMassesHeader (mkDataFile dn dt massLines atomLines) =
      some (massLines ++ "Atoms # atomic".toList :: atomLines) := by
    unfold mkDataFile
    rw [findRest_cons_neg (not_massesHeader_space (pyStrip_dn_atoms hdn)
        (List.mem_append.mpr (Or.inr (by decide))))]
    rw [findRest_cons_neg (not_massesHeader_space (pyStrip_dt_types hdt)
        (List.mem_append.mpr (Or.inr (by decide))))]
    rw [findRest_cons_pos (by decide)]
  have hkeys0 : (([] : List (Int × ℚ)).map Prod.fst ++
      (massLines.filter massWF).filterMap massKey).Nodup := by simpa using hkeys
  obtain ⟨ms, hms, hmsk⟩ := massLoop_spec atomLines massLines [] hm hkeys0
  have hmasses : parseMassesSection (mkDataFile dn dt massLines atomLines) = some ms := by
    unfold parseMassesSection
    rw [hfindM]
    exact hms
  have hmslen : ms.length = (massLines.filter massWF).length := by
    have h1 : (ms.map Prod.fst).length = ms.length := List.length_map _ _
    rw [← h1, hmsk]
    simp only [List.map_nil, List.nil_append]
    exact filterMap_isSome_length massKey
      (fun x hx => massWF_key_isSome (List.mem_filter.mp hx).2)
  have hfindA : findRest isAtomsSectionHeader (mkDataFile dn dt massLines atomLines) =
      some atomLines := by
    unfold mkDataFile
    have hsplit : (dn ++ " atoms".toList) :: (dt ++ " atom types".toList) :: "Masses".toList ::
        (massLines ++ "Atoms # atomic".toList :: atomLines) =
        ((dn ++ " atoms".toList) :: (dt ++ " atom types".toList) :: "Masses".toList :: massLines)
          ++ "Atoms # atomic".toList :: atomLines := by
      simp
    rw [hsplit]
    apply findRest_append
    · intro x hx
      simp only [List.mem_cons] at hx
      rcases hx with rfl | rfl | rfl | hx
      · exact not_atomsHeader_digit_line hdn (by decide) (by decide)
      · exact not_atomsHeader_digit_line hdt (by decide) (by decide)
      · decide
      · exact bodySafe_not_atomsHeader (massBodyOk_bodySafe (hm x hx))
    · decide
  obtain ⟨ats, hats, hatslen⟩ := atomLoop_spec atomLines ha
  have hatoms : parseAtomsSection (mkDataFile dn dt massLines atomLines) = some ats := by
    unfold parseAtomsSection
    rw [hfindA]
    exact hats
  refine ⟨⟨ats, ms, hdr⟩, ?_, hatslen, hmslen⟩
  unfold parse_lammps_data
  rw [hhdr, hmasses, hatoms]

/-- C4 counterexample: a file whose Masses section holds two well-formed
mass lines that share the type id 1; the claim demands two mass entries,
the parse returns one because the dict stores one entry per type id. -/
theorem c4_counterexample :
    (massWF "1 12.011".toList = true ∧ massWF "1 13.0".toList = true) ∧
    (parse_lammps_data (mkDataFile "5".toList "2".toList
        ["1 12.011".toList, "1 13.0".toList]
        ["1 1 0.0 0.0 0.0".toList])).map (fun s => s.masses.length) = some 1 := by
  constructor
  · constructor
    · decide
    · decide
  · decide

/-- C4 witness: the amended theorem applied to a concrete synthetic file
with declared counts 999 and 7, two well-formed mass lines, one malformed
mass line, two well-formed atom lines and one short atom line. -/
theorem c4_amended_witness :
    ∃ s, parse_lammps_data (mkDataFile "999".toList "7".toList
        ["1 12.011".toList, "2 1.008".toList, "bad".toList]
        ["2 1 1.0 1.0 1.0".toList, "1 1 0.0 0.0 0.0".toList, "short".toList]) = some s ∧
      s.atoms.length = ((["2 1 1.0 1.0 1.0".toList, "1 1 0.0 0.0 0.0".toList,
        "short".toList] : List Line).filter atomWF).length ∧
      s.masses.length = ((["1 12.011".toList, "2 1.008".toList,
        "bad".toList] : List Line).filter massWF).length :=
  c4_amended "999".toList "7".toList _ _ (by decide) (by decide) (by decide) (by decide)
    (by decide)

theorem parse_atoms_inv {lines : List Line} {s : ParsedData}
    (h : parse_lammps_data lines = some s) : parseAtomsSection lines = some s.atoms := by
  unfold parse_lammps_data at h
  rcases h1 : List.foldlM headerStep emptyHeader lines with _ | hdr <;> rw [h1] at h
  · simp at h
  rcases h2 : parseMassesSection lines with _ | ms <;> rw [h2] at h
  · simp at h
  rcases h3 : parseAtomsSection lines with _ | ats <;> rw [h3] at h
  · simp at h
  · simp only [Option.some_inj] at h
    rw [← h]

/-- C10: the parser locates the atoms section only on a line whose
lowercased text contains the substring atoms together with a hash character
or the substring atomic: a parse that yields any atoms has such a line, and
the concrete file whose atoms header is the bare token Atoms parses to an
empty atom collection even though a well-formed atom line follows. -/
theorem c10_header_detection :
    (∀ (lines : List Line) (s : ParsedData), parse_lammps_data lines = some s →
      s.atoms ≠ [] →
      ∃ l ∈ lines, (infixOf "atoms".toList (pyLower l) &&
        (infixOf "#".toList (pyLower l) || infixOf "atomic".toList (pyLower l))) = true) ∧
    (parse_lammps_data ["2 atoms".toList, "1 atom types".toList, "Masses".toList,
        "1 12.011".toList, "Atoms".toList, "1 1 0.5 0.5 0.5".toList]).map ParsedData.atoms =
      some [] := by
  constructor
  · intro lines s hp hne
    have hats := parse_atoms_inv hp
    unfold parseAtomsSection at hats
    rcases hf : findRest isAtomsSectionHeader lines with _ | rest <;> rw [hf] at hats
    · rw [Option.some_inj] at hats
      exact absurd hats.symm hne
    · rcases findRest_some hf with ⟨l, hl, hpl⟩
      refine ⟨l, hl, ?_⟩
      simpa [isAtomsSectionHeader] using hpl
  · decide

/-- C10 witness: the first part of the theorem applied to a file whose
atoms section header is recognized and whose atom collection is nonempty. -/
theorem c10_header_detection_witness :
    ∃ l ∈ (["2 atoms".toList, "1 atom types".toList, "Masses".toList,
      "1 12.011".toList, "Atoms # atomic".toList, "1 1 0.5 0.5 0.5".toList] : List Line),
      (infixOf "atoms".toList (pyLower l) &&
        (infixOf "#".toList (pyLower l) || infixOf "atomic".toList (pyLower l))) = true :=
  c10_header_detection.1
    ["2 atoms".toList, "1 atom types".toList, "Masses".toList,
      "1 12.011".toList, "Atoms # atomic".toList, "1 1 0.5 0.5 0.5".toList]
    ⟨[⟨1, 1, mkRat 1 2, mkRat 1 2, mkRat 1 2⟩], [(1, mkRat 12011 1000)],
      ⟨2, 1, none, none, none, none⟩⟩
    (by decide) (by decide)


/-! ## Lemmas about name ordering and the aggregation loop -/

theorem char_toNat_inj {a b : Char} (h : a.toNat = b.toNat) : a = b :=
  Char.eq_of_val_eq (UInt32.ext h)

theorem lexLeB_total : ∀ (a b : Line), lexLeB a b = true ∨ lexLeB b a = true
  | [], _ => Or.inl rfl
  | _ :: _, [] => Or.inr rfl
  | a :: as, b :: bs => by
    unfold lexLeB
    rcases Nat.lt_trichotomy a.toNat b.toNat with h | h | h
    · left
      rw [if_pos h]
    · rw [if_neg (by omega), if_neg (by omega), if_neg (by omega), if_neg (by omega)]
      exact lexLeB_total as bs
    · right
      rw [if_pos h]

theorem lexLeB_trans : ∀ {a b c : Line},
    lexLeB a b = true → lexLeB b c = true → lexLeB a c = true
  | [], _, _, _, _ => rfl
  | _ :: _, [], _, h1, _ => by cases h1
  | _ :: _, _ :: _, [], _, h2 => by cases h2
  | a :: as, b :: bs, c :: cs, h1, h2 => by
    unfold lexLeB at h1 h2 ⊢
    by_cases hab : a.toNat < b.toNat
    · by_cases hbc : b.toNat < c.toNat
      · rw [if_pos (by omega)]
      · by_cases hcb : c.toNat < b.toNat
        · rw [if_neg hbc, if_pos hcb] at h2
          cases h2
        · rw [if_pos (by omega)]
    · by_cases hba : b.toNat < a.toNat
      · rw [if_neg hab, if_pos hba] at h1
        cases h1
      · rw [if_neg hab, if_neg hba] at h1
        by_cases hbc : b.toNat < c.toNat
        · rw [if_pos (by omega)]
        · by_cases hcb : c.toNat < b.toNat
          · rw [if_neg hbc, if_pos hcb] at h2
            cases h2
          · rw [if_neg hbc, if_neg hcb] at h2
            rw [if_neg (by omega), if_neg (by omega)]
            exact lexLeB_trans h1 h2

theorem lexLeB_antisymm : ∀ {a b : Line}, lexLeB a b = true → lexLeB b a = true → a = b
  | [], [], _, _ => rfl
  | [], _ :: _, _, h2 => by cases h2
  | _ :: _, [], h1, _ => by cases h1
  | a :: as, b :: bs, h1, h2 => by
    unfold lexLeB at h1 h2
    by_cases hab : a.toNat < b.toNat
    · rw [if_neg (by omega), if_pos hab] at h2
      cases h2
    · by_cases hba : b.toNat < a.toNat
      · rw [if_neg hab, if_pos hba] at h1
        cases h1
      · rw [if_neg hab, if_neg hba] at h1
        rw [if_neg hba, if_neg hab] at h2
        rw [char_toNat_inj (by omega : a.toNat = b.toNat), lexLeB_antisymm h1 h2]

theorem aggLoop_cons (parent crystal : Option ℚ) (e : FSEntry) (rest : List FSEntry) :
    aggLoop parent crystal (e :: rest) =
      match folderRow parent crystal e with
      | none => aggLoop parent crystal rest
      | some r => r :: aggLoop parent crystal rest := by
  conv_lhs => rw [aggLoop]
  unfold folderRow
  cases he : e.edir
  · simp [he]
  · rcases ho : e.outRun with _ | bs
    · simp [he, ho]
    · rcases hd : decodeStrict bs with _ | content
      · simp [he, ho, hd]
      · rcases ht : scan_total content with _ | t <;>
          rcases hc : scan_cohesive content with _ | c <;>
            simp [he, ho, hd, ht, hc]

theorem aggLoop_eq_filterMap (parent crystal : Option ℚ) :
    ∀ ls : List FSEntry, aggLoop parent crystal ls = ls.filterMap (folderRow parent crystal)
  | [] => rfl
  | e :: rest => by
    rw [aggLoop_cons, List.filterMap_cons]
    cases folderRow parent crystal e <;>
      simp [aggLoop_eq_filterMap parent crystal rest]

theorem folderRow_folder {parent crystal : Option ℚ} {e : FSEntry} {r : EnergyRow}
    (h : folderRow parent crystal e = some r) : r.folder = e.ename := by
  unfold folderRow at h
  split at h
  · split at h
    · cases h
    · split at h
      · cases h
      · split at h
        · rw [Option.some_inj] at h
          rw [← h]
          rfl
        · cases h
  · cases h

theorem pairwise_filterMap_of {α β : Type} {S : α → α → Prop} {R : β → β → Prop}
    (f : α → Option β)
    (hf : ∀ a b, S a b → ∀ x, f a = some x → ∀ y, f b = some y → R x y) :
    ∀ {l : List α}, l.Pairwise S → (l.filterMap f).Pairwise R
  | [], _ => by simp
  | a :: t, h => by
    rw [List.filterMap_cons]
    rcases List.pairwise_cons.mp h with ⟨ha, ht⟩
    cases hfa : f a with
    | none => exact pairwise_filterMap_of f hf ht
    | some x =>
      rw [List.pairwise_cons]
      constructor
      · intro y hy
        rcases List.mem_filterMap.mp hy with ⟨b, hb, hfb⟩
        exact hf a b (ha b hb) x hfa y hfb
      · exact pairwise_filterMap_of f hf ht

theorem sortEntries_sorted (fs : List FSEntry) :
    List.Sorted (fun e1 e2 : FSEntry => lexLeB e1.ename e2.ename = true) (sortEntries fs) := by
  haveI : IsTotal FSEntry (fun e1 e2 => lexLeB e1.ename e2.ename = true) :=
    ⟨fun a b => lexLeB_total a.ename b.ename⟩
  haveI : IsTrans FSEntry (fun e1 e2 => lexLeB e1.ename e2.ename = true) :=
    ⟨fun _ _ _ h1 h2 => lexLeB_trans h1 h2⟩
  exact List.sorted_insertionSort _ fs

theorem sortEntries_perm (fs : List FSEntry) : (sortEntries fs).Perm fs :=
  List.perm_insertionSort _ fs

theorem sortEntries_strict {fs : List FSEntry} (hnd : (fs.map FSEntry.ename).Nodup) :
    List.Pairwise (fun e1 e2 : FSEntry =>
      lexLeB e1.ename e2.ename = true ∧ e1.ename ≠ e2.ename) (sortEntries fs) := by
  have h1 := sortEntries_sorted fs
  have h2 : ((sortEntries fs).map FSEntry.ename).Nodup := by
    rw [((sortEntries_perm fs).map FSEntry.ename).nodup_iff]
    exact hnd
  have h3 : (sortEntries fs).Pairwise (fun e1 e2 => e1.ename ≠ e2.ename) :=
    List.pairwise_map.mp h2
  exact h1.and h3

theorem sortEntries_eq_of_perm {fs fs2 : List FSEntry} (hperm : fs.Perm fs2)
    (hnd : (fs.map FSEntry.ename).Nodup) : sortEntries fs = sortEntries fs2 := by
  haveI : IsAntisymm FSEntry (fun e1 e2 : FSEntry =>
      lexLeB e1.ename e2.ename = true ∧ e1.ename ≠ e2.ename) :=
    ⟨fun a b h1 h2 => absurd (lexLeB_antisymm h1.1 h2.1) h1.2⟩
  have hnd2 : (fs2.map FSEntry.ename).Nodup := by
    rw [← (hperm.map FSEntry.ename).nodup_iff]
    exact hnd
  refine List.eq_of_perm_of_sorted ?_ (sortEntries_strict hnd) (sortEntries_strict hnd2)
  exact ((sortEntries_perm fs).trans hperm).trans (sortEntries_perm fs2).symm

/-! ## C1: rows emitted by the aggregator -/

/-- C1 counterexample: a directory whose log artifact is absent, and one
whose log lacks the cohesive-energy pattern, produce no summary row at all;
the claim demands exactly one row with N/A fields in both cases. -/
theorem c1_counterexample :
    aggregate [⟨"vac_1".toList, true, none⟩] (some (-100)) none = [] ∧
    aggregate [⟨"vac_1".toList, true,
      some (chBytes "Total energy (eV) = -95.0;".toList)⟩] (some (-100)) none = [] := by
  constructor
  · decide
  · decide

/-- C1 amended: the aggregator emits one row per subdirectory whose log
artifact exists, decodes, and matches both the total and cohesive energy
patterns, in sorted name order, and nothing for any other subdirectory;
a failing subdirectory never stops the others, each emitted row carries its
folder name, and the absent derived fields render as the N/A sentinel,
never as the empty string or zero. -/
theorem c1_amended (fs : List FSEntry) (parent crystal : Option ℚ) :
    aggregate fs parent crystal = (sortEntries fs).filterMap (folderRow parent crystal) ∧
    (∀ e r, folderRow parent crystal e = some r → r.folder = e.ename) ∧
    renderOptQ none = "N/A".toList ∧ ("N/A".toList : Line) ≠ [] ∧
    ("N/A".toList : Line) ≠ "0.0".toList :=
  ⟨aggLoop_eq_filterMap parent crystal (sortEntries fs),
   fun _ _ h => folderRow_folder h, rfl, by decide, by decide⟩

/-- C1 witness: the amended theorem applied to a one-directory listing with
a complete log, including the folder-name conjunct at its emitted row. -/
theorem c1_amended_witness :
    aggregate [⟨"a".toList, true, some (chBytes
        "Total energy (eV) = -95.0;\nCohesive energy (eV) = -4.0;".toList)⟩]
      (some (-100)) none =
      (sortEntries [⟨"a".toList, true, some (chBytes
        "Total energy (eV) = -95.0;\nCohesive energy (eV) = -4.0;".toList)⟩]).filterMap
        (folderRow (some (-100)) none) ∧
    (mkRow "a".toList (-95) (-4) (some (-100)) none).folder = "a".toList :=
  ⟨(c1_amended _ _ _).1,
   (c1_amended [⟨"a".toList, true, some (chBytes
       "Total energy (eV) = -95.0;\nCohesive energy (eV) = -4.0;".toList)⟩]
     (some (-100)) none).2.1
     ⟨"a".toList, true, some (chBytes
       "Total energy (eV) = -95.0;\nCohesive energy (eV) = -4.0;".toList)⟩
     (mkRow "a".toList (-95) (-4) (some (-100)) none) (by decide)⟩

/-! ## C5: the order of the emitted rows -/

/-- C5 counterexample: a listing enumerated as b then a produces rows a then
b: the folder loop iterates over sorted names, so the i-th row does not
correspond to the i-th listed subdirectory. -/
theorem c5_counterexample :
    (aggregate
      [⟨"b".toList, true, some (chBytes
        "Total energy (eV) = -95.0;\nCohesive energy (eV) = -4.0;".toList)⟩,
       ⟨"a".toList, true, some (chBytes
        "Total energy (eV) = -95.0;\nCohesive energy (eV) = -4.0;".toList)⟩]
      none none).map EnergyRow.folder = ["a".toList, "b".toList] ∧
    ([⟨"b".toList, true, some (chBytes
        "Total energy (eV) = -95.0;\nCohesive energy (eV) = -4.0;".toList)⟩,
      ⟨"a".toList, true, some (chBytes
        "Total energy (eV) = -95.0;\nCohesive energy (eV) = -4.0;".toList)⟩] :
      List FSEntry).map FSEntry.ename = ["b".toList, "a".toList] := by
  constructor
  · decide
  · decide

/-- C5 amended: the rows of the summary table appear in lexicographically
sorted order of the subdirectory names, because the loop explicitly sorts
the listing; for listings with distinct names the output is invariant under
any permutation of the enumeration order. -/
theorem c5_amended (fs fs2 : List FSEntry) (parent crystal : Option ℚ)
    (hperm : fs.Perm fs2) (hnd : (fs.map FSEntry.ename).Nodup) :
    List.Pairwise (fun r1 r2 : EnergyRow => lexLeB r1.folder r2.folder = true)
      (aggregate fs parent crystal) ∧
    aggregate fs parent crystal = aggregate fs2 parent crystal := by
  constructor
  · unfold aggregate
    rw [aggLoop_eq_filterMap]
    refine pairwise_filterMap_of _ ?_ (sortEntries_sorted fs)
    intro a b hS x hx y hy
    rw [folderRow_folder hx, folderRow_folder hy]
    exact hS
  · unfold aggregate
    rw [sortEntries_eq_of_perm hperm hnd]


/-- C5 witness: the amended theorem applied to a two-entry listing and its
swap, with the permutation and distinct-name hypotheses discharged. -/
theorem c5_amended_witness :
    List.Pairwise (fun r1 r2 : EnergyRow => lexLeB r1.folder r2.folder = true)
      (aggregate [⟨"b".toList, true, some (chBytes
          "Total energy (eV) = -95.0;\nCohesive energy (eV) = -4.0;".toList)⟩,
        ⟨"a".toList, true, none⟩] none none) ∧
    aggregate [⟨"b".toList, true, some (chBytes
        "Total energy (eV) = -95.0;\nCohesive energy (eV) = -4.0;".toList)⟩,
      ⟨"a".toList, true, none⟩] none none =
      aggregate [⟨"a".toList, true, none⟩,
        ⟨"b".toList, true, some (chBytes
          "Total energy (eV) = -95.0;\nCohesive energy (eV) = -4.0;".toList)⟩] none none :=
  c5_amended
    [⟨"b".toList, true, some (chBytes
        "Total energy (eV) = -95.0;\nCohesive energy (eV) = -4.0;".toList)⟩,
      ⟨"a".toList, true, none⟩]
    [⟨"a".toList, true, none⟩,
      ⟨"b".toList, true, some (chBytes
        "Total energy (eV) = -95.0;\nCohesive energy (eV) = -4.0;".toList)⟩]
    none none (by decide) (by decide)

/-! ## C7: the delta-energy formula -/

/-- C7: a summary row carries a delta exactly when the parent total is
present, and then delta = (total + cohesive) - parent; with parent total
-100, row total -95 and cohesive -4, the emitted row holds delta exactly 1,
computed end to end from the log text through the regular-expression
scanner. -/
theorem c7_delta (name : Line) (t c : ℚ) (parent crystal : Option ℚ) :
    ((mkRow name t c parent crystal).deltaE = none ↔ parent = none) ∧
    (∀ p, parent = some p → (mkRow name t c parent crystal).deltaE = some ((t + c) - p)) ∧
    scan_total "Total energy (eV) = -100.0;".toList = some (-100) ∧
    aggregate [⟨"vac_1".toList, true, some (chBytes
        "Total energy (eV) = -95.0;\nCohesive energy (eV) = -4.0;".toList)⟩]
      (some (-100)) none =
      [{ folder := "vac_1".toList, total := -95, cohesive := -4,
         deltaE := some 1, formation := none }] := by
  refine ⟨?_, ?_, by decide, by decide⟩
  · unfold mkRow
    cases parent <;> simp
  · intro p hp
    subst hp
    show some (qSub (qAdd t c) p) = some ((t + c) - p)
    rw [qSub_eq, qAdd_eq]

/-- C7 witness: the theorem applied at the concrete example with its
presence hypothesis discharged. -/
theorem c7_delta_witness :
    (mkRow "vac_1".toList (-95) (-4) (some (-100)) none).deltaE =
      some (((-95 : ℚ) + (-4)) - (-100)) :=
  (c7_delta "vac_1".toList (-95) (-4) (some (-100)) none).2.1 (-100) rfl

/-! ## C8: the writer sorts atoms by id -/

theorem sortAtomsById_sorted (l : List AtomRec) :
    List.Sorted (fun a b : AtomRec => a.aid ≤ b.aid) (sortAtomsById l) := by
  haveI : IsTotal AtomRec (fun a b => a.aid ≤ b.aid) := ⟨fun a b => Int.le_total a.aid b.aid⟩
  haveI : IsTrans AtomRec (fun a b => a.aid ≤ b.aid) := ⟨fun _ _ _ h1 h2 => le_trans h1 h2⟩
  exact List.sorted_insertionSort _ l

theorem sortAtomsById_perm (l : List AtomRec) : (sortAtomsById l).Perm l :=
  List.perm_insertionSort _ l

theorem sortAtomsById_strict {l : List AtomRec} (hnd : (l.map AtomRec.aid).Nodup) :
    List.Pairwise (fun a b : AtomRec => a.aid < b.aid) (sortAtomsById l) := by
  have h1 := sortAtomsById_sorted l
  have h2 : ((sortAtomsById l).map AtomRec.aid).Nodup := by
    rw [((sortAtomsById_perm l).map AtomRec.aid).nodup_iff]
    exact hnd
  have h3 : (sortAtomsById l).Pairwise (fun a b => a.aid ≠ b.aid) :=
    List.pairwise_map.mp h2
  exact (h1.and h3).imp (fun hab => lt_of_le_of_ne hab.1 hab.2)

/-- C8: for a parsed structure with pairwise distinct atom ids, the writer
emits its per-atom lines strictly ascending by id, and the whole output is
identical for any permutation of the input atom sequence, because the sort
is unconditional. -/
theorem c8_sorted_output (d1 d2 : ParsedData) (nm : Line) (lat : Bool)
    (hmass : d1.masses = d2.masses) (hhdr : d1.header = d2.header)
    (hperm : d1.atoms.Perm d2.atoms) (hnd : (d1.atoms.map AtomRec.aid).Nodup) :
    convert_data_to_xyz_lines d1 nm lat = convert_data_to_xyz_lines d2 nm lat ∧
    List.Pairwise (fun a b : AtomRec => a.aid < b.aid) (sortAtomsById d1.atoms) := by
  have hnd2 : (d2.atoms.map AtomRec.aid).Nodup := by
    rw [← (hperm.map AtomRec.aid).nodup_iff]
    exact hnd
  have hsorteq : sortAtomsById d1.atoms = sortAtomsById d2.atoms := by
    haveI : IsAntisymm AtomRec (fun a b : AtomRec => a.aid < b.aid) :=
      ⟨fun a b h1 h2 => absurd (lt_trans h1 h2) (lt_irrefl _)⟩
    refine List.eq_of_perm_of_sorted ?_ (sortAtomsById_strict hnd) (sortAtomsById_strict hnd2)
    exact ((sortAtomsById_perm d1.atoms).trans hperm).trans (sortAtomsById_perm d2.atoms).symm
  refine ⟨?_, sortAtomsById_strict hnd⟩
  unfold convert_data_to_xyz_lines
  rw [hmass, hhdr, hsorteq]

/-- C8 witness: the theorem applied to two permutations of a two-atom
structure. -/
theorem c8_sorted_output_witness :
    convert_data_to_xyz_lines
        ⟨[⟨2, 1, 1, 1, 1⟩, ⟨1, 1, 0, 0, 0⟩], [(1, mkRat 12011 1000)],
          ⟨2, 1, none, none, none, none⟩⟩ "a.data".toList false =
      convert_data_to_xyz_lines
        ⟨[⟨1, 1, 0, 0, 0⟩, ⟨2, 1, 1, 1, 1⟩], [(1, mkRat 12011 1000)],
          ⟨2, 1, none, none, none, none⟩⟩ "a.data".toList false ∧
    List.Pairwise (fun a b : AtomRec => a.aid < b.aid)
      (sortAtomsById [⟨2, 1, 1, 1, 1⟩, ⟨1, 1, 0, 0, 0⟩]) :=
  c8_sorted_output
    ⟨[⟨2, 1, 1, 1, 1⟩, ⟨1, 1, 0, 0, 0⟩], [(1, mkRat 12011 1000)],
      ⟨2, 1, none, none, none, none⟩⟩
    ⟨[⟨1, 1, 0, 0, 0⟩, ⟨2, 1, 1, 1, 1⟩], [(1, mkRat 12011 1000)],
      ⟨2, 1, none, none, none, none⟩⟩
    "a.data".toList false rfl rfl (by decide) (by decide)

/-! ## C9: the lattice comment -/

/-- C9: converting a structure whose orthogonal box spans x 0 to 10, y 0 to
5, z 0 to 5 with include_lattice set produces a comment line containing the
exact claimed lattice substring. -/
theorem c9_lattice :
    (convert_data_to_xyz_lines
      ⟨[⟨1, 1, 0, 0, 0⟩], [(1, mkRat 12011 1000)],
        ⟨1, 1, some (0, 10), some (0, 5), some (0, 5), none⟩⟩
      "structure.data".toList true).map
      (fun ls => infixOf "Lattice=\"10.0 0.0 0.0 0.0 5.0 0.0 0.0 0.0 5.0\"".toList
        (ls.getD 1 [])) = some true := by
  decide


/-! ## Lemmas about the integrity checker and the byte-level scanners -/

theorem checkBody_size {bs : List PByte} {i : CheckInfo} (h : checkBody bs = some i) :
    i.fileSize = bs.length := by
  simp only [checkBody] at h
  split at h
  · cases h
  · rename_i i1 heq1
    split at h
    · cases h
    · rename_i i2 heq2
      have hsz1 : i1.fileSize = bs.length := by
        split at heq1
        · rw [Option.some_inj] at heq1
          rw [← heq1]
        · rcases Option.map_eq_some'.mp heq1 with ⟨v, -, hv⟩
          rw [← hv]
      have hsz2 : i2.fileSize = bs.length := by
        split at heq2
        · rw [Option.some_inj] at heq2
          rw [← heq2]
          exact hsz1
        · rcases Option.map_eq_some'.mp heq2 with ⟨v, -, hv⟩
          rw [← hv]
          exact hsz1
      rw [Option.some_inj] at h
      rw [← h]
      split <;> split <;> exact hsz2

theorem decodeStrict_isSome {bs : List PByte} :
    (decodeStrict bs).isSome = true ↔ PByte.inv ∉ bs := by
  unfold decodeStrict
  split
  · rename_i hall
    simp only [Option.isSome_some, true_iff]
    intro hmem
    rw [List.all_eq_true] at hall
    have := hall PByte.inv hmem
    cases this
  · rename_i hall
    constructor
    · intro h
      exact absurd h Bool.false_ne_true
    · intro hnmem
      exfalso
      apply hall
      rw [List.all_eq_true]
      intro b hb
      cases b with
      | ch c => rfl
      | inv => exact absurd hb hnmem

theorem check_total_absent {bs : List PByte}
    (h : searchA checkTotalAt (decodeIgnore bs) = none) :
    (check_energy_in_output (some bs)).hasTotal = false ∧
    (check_energy_in_output (some bs)).totalE = none := by
  unfold check_energy_in_output
  simp only [checkBody, h]
  rcases h2 : searchA checkCohAt (decodeIgnore bs) with _ | cap
  · simp [h2, apply_ite CheckInfo.hasTotal, apply_ite CheckInfo.totalE]
  · rcases h3 : pyFloatTok cap with _ | v
    · simp [h2, h3, errorInfoRec]
    · simp [h2, h3, apply_ite CheckInfo.hasTotal, apply_ite CheckInfo.totalE]

/-! ## C6: the scanners never raise, and the byte decoding policies -/

/-- C6 counterexample: the summary scanner raises on an invalid byte
(strict decoding, none models the exception caught only per folder); and
the integrity scanner drops invalid bytes instead of replacing them, so a
pattern broken by an invalid byte still matches under the code but would
not match under the replacement decoding the spec prescribes. -/
theorem c6_counterexample :
    summaryReadAndScan [PByte.inv] = none ∧
    (check_energy_in_output (some (chBytes "Total en".toList ++ PByte.inv ::
      chBytes "ergy (eV) = 1.0;".toList))).hasTotal = true ∧
    searchA checkTotalAt (specDecodeReplace (chBytes "Total en".toList ++ PByte.inv ::
      chBytes "ergy (eV) = 1.0;".toList)) = none := by
  refine ⟨rfl, by decide, by decide⟩

/-- C6 amended: the summary reader decodes strictly, so its per-folder scan
raises exactly when an invalid byte is present; the integrity scanner
ignore-decodes and never raises, and a missing total-energy pattern yields
a typed absent result, never an error. -/
theorem c6_amended (bs : List PByte) :
    ((summaryReadAndScan bs).isSome = true ↔ PByte.inv ∉ bs) ∧
    (searchA checkTotalAt (decodeIgnore bs) = none →
      (check_energy_in_output (some bs)).hasTotal = false ∧
      (check_energy_in_output (some bs)).totalE = none) ∧
    (check_energy_in_output (some bs)).fileExists = true := by
  refine ⟨?_, check_total_absent, ?_⟩
  · unfold summaryReadAndScan
    have hmap : (Option.map (fun content => (scan_total content, scan_cohesive content))
        (decodeStrict bs)).isSome = (decodeStrict bs).isSome := by
      cases decodeStrict bs <;> rfl
    rw [hmap]
    exact decodeStrict_isSome
  · show ((checkBody bs).getD errorInfoRec).fileExists = true
    rcases hcb : checkBody bs with _ | i
    · rfl
    · show i.fileExists = true
      simp only [checkBody] at hcb
      split at hcb
      · cases hcb
      · rename_i i1 heq1
        split at hcb
        · cases hcb
        · rename_i i2 heq2
          have he1 : i1.fileExists = true := by
            split at heq1
            · rw [Option.some_inj] at heq1
              rw [← heq1]
            · rcases Option.map_eq_some'.mp heq1 with ⟨v, -, hv⟩
              rw [← hv]
          have he2 : i2.fileExists = true := by
            split at heq2
            · rw [Option.some_inj] at heq2
              rw [← heq2]
              exact he1
            · rcases Option.map_eq_some'.mp heq2 with ⟨v, -, hv⟩
              rw [← hv]
              exact he1
          rw [Option.some_inj] at hcb
          rw [← hcb]
          split <;> split <;> exact he2

/-- C6 witness: the amended theorem applied to clean bytes lacking every
pattern, with the missing-pattern hypothesis discharged. -/
theorem c6_amended_witness :
    ((summaryReadAndScan (chBytes "no energies here".toList)).isSome = true ↔
      PByte.inv ∉ chBytes "no energies here".toList) ∧
    (check_energy_in_output (some (chBytes "no energies here".toList))).hasTotal = false ∧
    (check_energy_in_output (some (chBytes "no energies here".toList))).totalE = none :=
  ⟨(c6_amended (chBytes "no energies here".toList)).1,
    (c6_amended (chBytes "no energies here".toList)).2.1 (by decide)⟩

/-! ## C2: the integrity classification -/

/-- C2 counterexample: a log holding only the table-header pattern, one of
the four recognized patterns of the claim; the checker records the header
match yet classifies the folder as lacking energy markers, because the
classification consults only the other three patterns. -/
theorem c2_counterexample :
    (check_energy_in_output (some (chBytes "Step  PotEng".toList))).hasHeader = true ∧
    classifyFolder (some (chBytes "Step  PotEng".toList)) =
      .withoutEnergy false := by
  constructor
  · decide
  · decide

/-- C2 amended: the checker classifies a folder as missing-file exactly for
an absent log; a present log is ok exactly when one of the three consulted
markers (total energy, cohesive energy, tabulated potential-energy data)
was recorded, the table-header marker being detected but never consulted; a
zero-byte log lands in the without-energy class with the empty-file detail,
and a cleanly scanned nonempty marker-less log lands there with the
byte-size detail, so the two never collapse. -/
theorem c2_amended (file : Option (List PByte)) :
    (classifyFolder file = .missingFile ↔ file = none) ∧
    (∀ bs, file = some bs →
      (classifyFolder file = .ok ↔ hasKeyEnergies (check_energy_in_output file) = true)) ∧
    (∀ bs, file = some bs → bs = [] → classifyFolder file = .withoutEnergy true) ∧
    (∀ bs i, file = some bs → checkBody bs = some i → hasKeyEnergies i = false → bs ≠ [] →
      classifyFolder file = .withoutEnergy false) := by
  refine ⟨?_, ?_, ?_, ?_⟩
  · cases file with
    | none => simp [classifyFolder]
    | some bs =>
      simp only [classifyFolder]
      constructor
      · intro h
        split at h <;> cases h
      · intro h
        cases h
  · intro bs hf
    subst hf
    simp only [classifyFolder]
    cases hk : hasKeyEnergies (check_energy_in_output (some bs))
    · simp
    · simp
  · intro bs hf hbs
    subst hf
    subst hbs
    decide
  · intro bs i hf hcb hk hne
    subst hf
    simp only [classifyFolder]
    have hout : check_energy_in_output (some bs) = i := by
      show (checkBody bs).getD errorInfoRec = i
      rw [hcb]
      rfl
    rw [hout, if_neg (by rw [hk]; exact Bool.false_ne_true)]
    have hsz := checkBody_size hcb
    have hlen : bs.length ≠ 0 := by
      intro h0
      exact hne (List.length_eq_zero.mp h0)
    have : (i.fileSize == 0) = false := by
      rw [hsz]
      exact beq_eq_false_iff_ne.mpr hlen
    rw [this]

/-- C2 witness: the amended theorem applied to a concrete marker-less
nonempty log and to a concrete zero-byte log. -/
theorem c2_amended_witness :
    classifyFolder (some (chBytes "nothing to see".toList)) = .withoutEnergy false ∧
    classifyFolder (some ([] : List PByte)) = .withoutEnergy true :=
  ⟨(c2_amended (some (chBytes "nothing to see".toList))).2.2.2
      (chBytes "nothing to see".toList)
      (check_energy_in_output (some (chBytes "nothing to see".toList)))
      rfl (by decide) (by decide) (by decide),
    (c2_amended (some ([] : List PByte))).2.2.1 [] rfl rfl⟩

end Mitacs
